import Mathlib

/-!
Verification development for the HTTP/2 reverse-proxy core of
vite-plugin-proxy-http2.

The definitions below are shallow embeddings of the TypeScript source:

* `src/request-queue.ts`   — `RequestQueue` (per-origin FIFO with a global
  bound, per-entry timers, bulk clear); modelled by `QState` and the
  operations `enqueue`, `dequeueQ`, `removeRequest`, `fireTimeout`, `clearQ`.
* `src/connection-pool.ts` — `Http2ConnectionPool` (one session per origin,
  active-stream counters, LRU eviction, idle cleanup, auth validation);
  modelled by `PoolState` and `getSession`, `getAvailableSession`,
  `incrementActiveStreams`, `decrementActiveStreams`, `canAcceptStream`.
* `src/http2-proxy-enhanced.ts` — protocol selection (`selectPath`,
  `supportsHttp2`), outbound header construction (`createHttp2Headers`,
  `proxyHttp1Headers`), per-request timeout logic (`jsOrTimeout`,
  `streamStep`, `http1TimerArmed`) and cookie rewriting (`rewriteCookie`).

JavaScript `Map<string, T>` objects are modelled as association lists with
`mget` / `mset` / `mdel`; JS truthiness of optional strings and numbers is
modelled by `truthyS` / `jsOrNat`.
-/

/- ### JS collection and truthiness helpers -/

/-- Lookup in a JS `Map<string, α>` / plain object, modelled as an
association list (first binding wins; key lists are kept duplicate-free by
the operations below). -/
def mget {α : Type} : List (String × α) → String → Option α
  | [], _ => none
  | (k', v) :: rest, k => if k' = k then some v else mget rest k

/-- `map.set(k, v)` / `obj[k] = v`: overwrite in place if present, append
otherwise. -/
def mset {α : Type} : List (String × α) → String → α → List (String × α)
  | [], k, v => [(k, v)]
  | (k', v') :: rest, k, v =>
    if k' = k then (k, v) :: rest else (k', v') :: mset rest k v

/-- `map.delete(k)`: remove the (first) binding of `k`. -/
def mdel {α : Type} : List (String × α) → String → List (String × α)
  | [], _ => []
  | (k', v') :: rest, k => if k' = k then rest else (k', v') :: mdel rest k

/-- JS truthiness of an optional string (`undefined` and `""` are falsy). -/
def truthyS : Option String → Bool
  | none => false
  | some s => s ≠ ""

/-- JS `a || d` for an optional number `a` (`undefined` and `0` are falsy). -/
def jsOrNat (v : Option Nat) (d : Nat) : Nat :=
  match v with
  | some n => if n = 0 then d else n
  | none => d

/-- ASCII lower-casing, the behaviour of `String.prototype.toLowerCase` on
the header values involved. -/
def strLower (s : String) : String := ⟨s.toList.map Char.toLower⟩

/-- JS `s.startsWith(pre)`. -/
def strStartsWith (s pre : String) : Bool := pre.toList.isPrefixOf s.toList

/-- JS `s.slice(0, -1)` (drop the last character; used on `URL.protocol`). -/
def strDropLast (s : String) : String := ⟨s.toList.dropLast⟩

/-- Index of the first occurrence of `pat` in `l` (`String.prototype.indexOf`). -/
def findSubstr (pat : List Char) : List Char → Option Nat
  | [] => if pat.isEmpty then some 0 else none
  | c :: cs => if pat.isPrefixOf (c :: cs) then some 0 else (findSubstr pat cs).map (· + 1)

/-- JS `s.includes(pat)`. -/
def strIncludes (s pat : String) : Bool := (findSubstr pat.toList s.toList).isSome

/-- The base64 alphabet used by `Buffer.prototype.toString("base64")`. -/
def base64Alphabet : List Char :=
  "ABCDEFGHIJKLMNOPQRSTUVWXYZabcdefghijklmnopqrstuvwxyz0123456789+/".toList

/-- One output character of base64 (6-bit group). -/
def b64Char (n : Nat) : Char := base64Alphabet.getD n 'A'

/-- Standard base64 of a byte list with `=` padding. -/
def base64encodeBytes : List Nat → List Char
  | [] => []
  | [a] => [b64Char (a / 4), b64Char (a % 4 * 16), '=', '=']
  | [a, b] => [b64Char (a / 4), b64Char (a % 4 * 16 + b / 16), b64Char (b % 16 * 4), '=']
  | a :: b :: c :: rest =>
    b64Char (a / 4) :: b64Char (a % 4 * 16 + b / 16) ::
      b64Char (b % 16 * 4 + c / 64) :: b64Char (c % 64) :: base64encodeBytes rest

/-- UTF-8 encoding of one character (the bytes `Buffer.from` produces). -/
def utf8Bytes (c : Char) : List Nat :=
  let n := c.toNat
  if n < 128 then [n]
  else if n < 2048 then [192 + n / 64, 128 + n % 64]
  else if n < 65536 then [224 + n / 4096, 128 + n / 64 % 64, 128 + n % 64]
  else [240 + n / 262144, 128 + n / 4096 % 64, 128 + n / 64 % 64, 128 + n % 64]

/-- `Buffer.from(s).toString("base64")`: base64 of the UTF-8 bytes of `s`. -/
def base64encode (s : String) : String :=
  ⟨base64encodeBytes ((s.toList.map utf8Bytes).flatten)⟩

/- ### Request queue (`src/request-queue.ts`) -/

/-- One `QueuedRequest`.  The inbound request/response handles and the resume
callback are irrelevant to the queue's control logic; what matters for the
queue's behaviour is the entry's identity (`id`, assigned in enqueue order)
and its origin.  The `timeoutHandle` is modelled by membership of the entry
in `QState.timers`. -/
structure QEntry where
  id : Nat
  origin : String
deriving DecidableEq, Repr

/-- State of a `RequestQueue`: the per-origin `Map<string, QueuedRequest[]>`,
the set of armed per-entry timers, the `totalQueued` counter, and a counter
supplying fresh entry identities. -/
structure QState where
  queue : List (String × List QEntry)
  timers : List QEntry
  totalQueued : Nat
  nextId : Nat
deriving Repr

/-- A freshly constructed queue. -/
def initQ : QState := ⟨[], [], 0, 0⟩

/-- Externally visible effects of queue operations: the queue-full warning
log, and the three ways an entry is handed back: returned by `dequeue` for
the caller to resume, completed with 503 by its own timeout, or completed
with 503 by the shutdown `clear`. -/
inductive QEvent where
  | warnQueueFull (origin : String)
  | enqueued (e : QEntry)
  | resumed (e : QEntry)
  | timedOut503 (e : QEntry)
  | cleared503 (e : QEntry)
deriving DecidableEq, Repr

/-- `RequestQueue.enqueue`: reject (return `false`, warn) when
`totalQueued >= maxQueueSize`; otherwise create the entry, arm its timer,
push it onto its origin's list and bump the counter. -/
def enqueue (maxQueueSize : Nat) (o : String) (s : QState) :
    Bool × QState × List QEvent :=
  if s.totalQueued ≥ maxQueueSize then
    (false, s, [QEvent.warnQueueFull o])
  else
    let e : QEntry := ⟨s.nextId, o⟩
    let originQueue := (mget s.queue o).getD []
    (true,
      { queue := mset s.queue o (originQueue ++ [e])
        timers := e :: s.timers
        totalQueued := s.totalQueued + 1
        nextId := s.nextId + 1 },
      [QEvent.enqueued e])

/-- `RequestQueue.dequeue`: pop the head of the origin's list (`shift`),
cancel its timer, drop the origin key when its list empties, decrement the
counter; `null` when the origin has no list or an empty one. -/
def dequeueQ (o : String) (s : QState) : Option QEntry × QState × List QEvent :=
  match mget s.queue o with
  | none => (none, s, [])
  | some [] => (none, s, [])
  | some (e :: rest) =>
    (some e,
      { queue := if rest.isEmpty then mdel s.queue o else mset s.queue o rest
        timers := s.timers.erase e
        totalQueued := s.totalQueued - 1
        nextId := s.nextId },
      [QEvent.resumed e])

/-- `RequestQueue.removeRequest` (private): splice the given entry out of its
origin's list if still there, decrement the counter, drop empty keys. -/
def removeRequest (o : String) (e : QEntry) (s : QState) : QState :=
  match mget s.queue o with
  | none => s
  | some l =>
    if e ∈ l then
      let l' := l.erase e
      { s with
        queue := if l'.isEmpty then mdel s.queue o else mset s.queue o l'
        totalQueued := s.totalQueued - 1 }
    else s

/-- The timeout handler installed by `enqueue` runs: only possible while the
timer is still armed (`setTimeout` semantics); it removes the entry and
completes the held response with 503. -/
def fireTimeout (e : QEntry) (s : QState) : QState × List QEvent :=
  if e ∈ s.timers then
    let s' := removeRequest e.origin e s
    ({ s' with timers := s'.timers.erase e }, [QEvent.timedOut503 e])
  else (s, [])

/-- All queued entries across all origins (used for the global invariants). -/
def entriesOf (m : List (String × List QEntry)) : List QEntry :=
  (m.map Prod.snd).flatten

/-- All entries of a queue state. -/
def allEntries (s : QState) : List QEntry := entriesOf s.queue

/-- `RequestQueue.clear`: cancel every queued entry's timer, complete each
with 503, empty the map and zero the counter. -/
def clearQ (s : QState) : QState × List QEvent :=
  ({ queue := []
     timers := (allEntries s).foldl (fun ts e => ts.erase e) s.timers
     totalQueued := 0
     nextId := s.nextId },
    (allEntries s).map QEvent.cleared503)

/-- The operations the proxy engine and the timer wheel can apply to the
queue. -/
inductive QOp where
  | enq (o : String)
  | deq (o : String)
  | fire (e : QEntry)
  | clear
deriving Repr

/-- One queue step. -/
def qstep (maxQ : Nat) (s : QState) : QOp → QState × List QEvent
  | .enq o => ((enqueue maxQ o s).2.1, (enqueue maxQ o s).2.2)
  | .deq o => ((dequeueQ o s).2.1, (dequeueQ o s).2.2)
  | .fire e => fireTimeout e s
  | .clear => clearQ s

/-- Run a sequence of queue operations from a given state, accumulating the
emitted events. -/
def qrunFrom (maxQ : Nat) : QState × List QEvent → List QOp → QState × List QEvent
  | acc, [] => acc
  | acc, op :: ops =>
    let r := qstep maxQ acc.1 op
    qrunFrom maxQ (r.1, acc.2 ++ r.2) ops

/-- Run a sequence of queue operations from the initial (empty) queue. -/
def qrun (maxQ : Nat) (ops : List QOp) : QState × List QEvent :=
  qrunFrom maxQ (initQ, []) ops

/-- Ids of a list of entries. -/
def idsOf (l : List QEntry) : List Nat := l.map QEntry.id

/-- The id resolved by an event, if the event resolves an entry (resume,
timeout, or clear). -/
def resolutionId : QEvent → Option Nat
  | .resumed e => some e.id
  | .timedOut503 e => some e.id
  | .cleared503 e => some e.id
  | _ => none

/-- Ids of all entries resolved in an event trace. -/
def resolvedIds (evs : List QEvent) : List Nat := evs.filterMap resolutionId

/-- The id enqueued by an event, if any. -/
def enqueueId : QEvent → Option Nat
  | .enqueued e => some e.id
  | _ => none

/-- Ids of all entries accepted into the queue in an event trace. -/
def enqueuedIds (evs : List QEvent) : List Nat := evs.filterMap enqueueId

/-- `RequestQueueOptions`. -/
structure RequestQueueOptions where
  maxQueueSize : Option Nat := none
  queueTimeout : Option Nat := none

/-- The `RequestQueue` constructor's resolution of its tuning options:
`maxQueueSize || 512` and `queueTimeout || 30000`. -/
def mkRequestQueue (opts : RequestQueueOptions) : Nat × Nat :=
  (jsOrNat opts.maxQueueSize 512, jsOrNat opts.queueTimeout 30000)

/- ### Connection pool (`src/connection-pool.ts`) -/

/-- `ConnectionPoolOptions`. -/
structure ConnectionPoolOptions where
  secure : Option Bool := none
  auth : Option String := none

/-- Split a character list at every occurrence of `c`
(the behaviour of JS `String.prototype.split` with a one-character
separator and no limit). -/
def splitChar (c : Char) : List Char → List (List Char)
  | [] => [[]]
  | x :: xs =>
    match splitChar c xs with
    | [] => [[]]
    | h :: t => if x = c then [] :: h :: t else (x :: h) :: t

/-- JS `s.split(":")`. -/
def splitOnColon (s : String) : List String :=
  (splitChar ':' s.toList).map (fun l => ⟨l⟩)

/-- The auth-validation block of `Http2ConnectionPool.getSession`
(guarded by JS truthiness of `options.auth`): split on `":"`, demand exactly
two non-empty parts, and produce the `connectOptions.auth` credential. -/
def validateAuth (auth : Option String) : Except String (Option String) :=
  match auth with
  | none => .ok none
  | some a =>
    if a = "" then .ok none
    else
      let authParts := splitOnColon a
      if authParts.length ≠ 2 then
        .error ("Invalid auth format. Expected \"username:password\", got \"" ++ a ++ "\"")
      else
        let username := (authParts.get? 0).getD ""
        let password := (authParts.get? 1).getD ""
        if username = "" ∨ password = "" then
          .error "Auth username and password cannot be empty"
        else .ok (some (username ++ ":" ++ password))

/-- The TLS connection options `getSession` builds before `connect`. -/
structure ConnectOptions where
  rejectUnauthorized : Bool
  auth : Option String := none
deriving DecidableEq, Repr

/-- `connectOptions` construction in `getSession`: TLS verification is on
unless `secure === false`, and a validated auth credential is attached. -/
def buildConnectOptions (o : ConnectionPoolOptions) : Except String ConnectOptions :=
  (validateAuth o.auth).map (fun a => ⟨o.secure ≠ some false, a⟩)

/-- One pooled `Http2Session` record. -/
structure PoolSession where
  closed : Bool
  destroyed : Bool
  lastUsed : Nat
  activeStreams : Nat
  maxConcurrentStreams : Nat
deriving DecidableEq, Repr

/-- `Http2ConnectionPool` state: the per-origin session map and the tuning
fields (`maxAge` 5 minutes, `maxSessions` 100). -/
structure PoolState where
  sessions : List (String × PoolSession)
  maxAge : Nat := 5 * 60 * 1000
  maxSessions : Nat := 100
deriving Repr

/-- An empty pool with default tuning. -/
def initPool : PoolState := { sessions := [] }

/-- `evictOldest` (private): close and remove the session with the smallest
`lastUsed`, keeping the first such on ties (forward iteration with strict
`<` replacement). -/
def evictOldest (p : PoolState) : PoolState :=
  let oldest := p.sessions.foldl
    (fun acc e =>
      match acc with
      | none => some e
      | some o => if e.2.lastUsed < o.2.lastUsed then some e else some o)
    none
  match oldest with
  | none => p
  | some o => { p with sessions := mdel p.sessions o.1 }

/-- `cleanup` (private): close and remove every session idle longer than
`maxAge`. -/
def cleanupPool (p : PoolState) (now : Nat) : PoolState :=
  { p with sessions := p.sessions.filter (fun e => ¬(now - e.2.lastUsed > p.maxAge)) }

/-- A session freshly produced by `connect`: zero active streams and the
conservative default of 100 concurrent streams until `remoteSettings`
reports the peer's real limit. -/
def newPoolSession (now : Nat) : PoolSession :=
  { closed := false, destroyed := false, lastUsed := now
    activeStreams := 0, maxConcurrentStreams := 100 }

/-- The session-creation tail of `getSession`: validate/build connection
options (can throw), evict the LRU session when at `maxSessions`, insert the
new session, then run the idle-age cleanup.  The returned flag is `false`:
a new session was created. -/
def getSessionNew (p : PoolState) (origin : String) (opts : ConnectionPoolOptions)
    (now : Nat) : Except String (PoolState × Bool) :=
  match buildConnectOptions opts with
  | .error e => .error e
  | .ok _ =>
    let p1 := if p.sessions.length ≥ p.maxSessions then evictOldest p else p
    let p2 := { p1 with sessions := mset p1.sessions origin (newPoolSession now) }
    .ok (cleanupPool p2 now, false)

/-- `Http2ConnectionPool.getSession`: reuse the existing session for the
origin when it is neither closed nor destroyed (touching `lastUsed`,
returned flag `true`), otherwise create a new one. -/
def getSession (p : PoolState) (origin : String) (opts : ConnectionPoolOptions)
    (now : Nat) : Except String (PoolState × Bool) :=
  match mget p.sessions origin with
  | some ex =>
    if ¬ex.closed ∧ ¬ex.destroyed then
      .ok ({ p with sessions := mset p.sessions origin { ex with lastUsed := now } }, true)
    else getSessionNew p origin opts now
  | none => getSessionNew p origin opts now

/-- `canAcceptStream`. -/
def canAcceptStream (p : PoolState) (origin : String) : Bool :=
  match mget p.sessions origin with
  | none => false
  | some s =>
    if s.closed ∨ s.destroyed then false
    else if s.activeStreams < s.maxConcurrentStreams then true else false

/-- `incrementActiveStreams`: unconditional increment when the session
exists. -/
def incrementActiveStreams (p : PoolState) (origin : String) : PoolState :=
  match mget p.sessions origin with
  | none => p
  | some s =>
    { p with sessions := mset p.sessions origin { s with activeStreams := s.activeStreams + 1 } }

/-- `decrementActiveStreams`: decrement, guarded to never go negative. -/
def decrementActiveStreams (p : PoolState) (origin : String) : PoolState :=
  match mget p.sessions origin with
  | none => p
  | some s =>
    if s.activeStreams > 0 then
      { p with sessions := mset p.sessions origin { s with activeStreams := s.activeStreams - 1 } }
    else p

/-- `getAvailableSession`: reuse the existing live session when below its
concurrency limit; otherwise, when `sessions.size < maxSessions` or there is
no existing session, delegate to `getSession`; otherwise `null` (caller must
queue). -/
def getAvailableSession (p : PoolState) (origin : String) (opts : ConnectionPoolOptions)
    (now : Nat) : Except String (Option (PoolState × Bool)) :=
  match mget p.sessions origin with
  | some ex =>
    if (¬ex.closed ∧ ¬ex.destroyed) ∧ ex.activeStreams < ex.maxConcurrentStreams then
      .ok (some ({ p with sessions := mset p.sessions origin { ex with lastUsed := now } }, true))
    else if p.sessions.length < p.maxSessions then
      (getSession p origin opts now).map some
    else .ok none
  | none => (getSession p origin opts now).map some

/-- The capacity-relevant slice of one request on the pooled path
(`createAndHandleStream` + the head of `processProxiedRequest`): obtain a
session via `getAvailableSession`; `none` means the request was queued;
otherwise `incrementActiveStreams` is called and the stream is issued on the
returned session. -/
def acquireAndStart (p : PoolState) (origin : String) (opts : ConnectionPoolOptions)
    (now : Nat) : Except String (Option PoolState) :=
  match getAvailableSession p origin opts now with
  | .error e => .error e
  | .ok none => .ok none
  | .ok (some (p', _)) => .ok (some (incrementActiveStreams p' origin))

/-- `n` back-to-back requests on the pooled path to one origin, none of
which has completed yet.  Propagates `none` if any request was queued. -/
def repeatAcquire (origin : String) (opts : ConnectionPoolOptions) :
    Nat → Except String (Option PoolState)
  | 0 => .ok (some initPool)
  | n + 1 =>
    match repeatAcquire origin opts n with
    | .error e => .error e
    | .ok none => .ok none
    | .ok (some p) => acquireAndStart p origin opts 0

/-- Observe a session's `(activeStreams, maxConcurrentStreams)` after a
`repeatAcquire` run. -/
def poolObserve (r : Except String (Option PoolState)) (origin : String) :
    Option (Nat × Nat) :=
  match r with
  | .ok (some p) =>
    match mget p.sessions origin with
    | some s => some (s.activeStreams, s.maxConcurrentStreams)
    | none => none
  | _ => none

/-- The origin used in the concrete capacity scenario. -/
def c1Origin : String := "o"

/-- Observation of the 101st request against a single-origin pool whose
session is at its default concurrency limit: whether the pool reports
capacity (`canAcceptStream`) and whether `getAvailableSession` nevertheless
hands back the existing at-capacity session. -/
def c1Observe : Option (Bool × Bool) :=
  match repeatAcquire c1Origin { } 100 with
  | .ok (some p) =>
    match getAvailableSession p c1Origin { } 0 with
    | .ok (some (_, reused)) => some (canAcceptStream p c1Origin, reused)
    | _ => none
  | _ => none

/- ### Protocol selection (`src/http2-proxy-enhanced.ts`, `proxyHttp2Request`
and `supportsHttp2`) -/

/-- The inbound header fields consulted by the WebSocket detection in
`proxyHttp2Request` (values as Node delivers them: lowercase keys, `none`
when absent). -/
structure ReqHeaders where
  upgrade : Option String := none
  connection : Option String := none
  secWebSocketKey : Option String := none
  secWebSocketVersion : Option String := none
deriving DecidableEq, Repr

/-- The `isWebSocketRequest` expression of `proxyHttp2Request`:
`upgrade?.toLowerCase() === "websocket" ||
 (connection?.toLowerCase().includes("upgrade") && sec-websocket-key) ||
 sec-websocket-version` (JS truthiness). -/
def isWebSocketRequest (h : ReqHeaders) : Bool :=
  (match h.upgrade with
    | some u => strLower u = "websocket"
    | none => false)
  || ((match h.connection with
        | some c => strIncludes (strLower c) "upgrade"
        | none => false) && truthyS h.secWebSocketKey)
  || truthyS h.secWebSocketVersion

/-- The upgrade-likeness predicate as the claim words it: an upgrade header
present, or `sec-websocket-key`/`sec-websocket-version` present.  Modelled
from the spec for comparison against `isWebSocketRequest`. -/
def specUpgradeLike (h : ReqHeaders) : Bool :=
  truthyS h.upgrade || truthyS h.secWebSocketKey || truthyS h.secWebSocketVersion

/-- Outcome of the one-shot HTTP/2 support probe connection. -/
inductive ProbeOutcome where
  | success
  | timeout
  | connError
deriving DecidableEq, Repr

/-- How `supportsHttp2` classifies a probe outcome: only a successful
`connect` event counts as HTTP/2 support; a timeout or connection error
means "unsupported". -/
def probeBool : ProbeOutcome → Bool
  | .success => true
  | _ => false

/-- `supportsHttp2` with its `http2SupportMap` memo: a cached origin is
answered from the cache; a miss runs the probe and caches its boolean. -/
def supportsHttp2 (cache : List (String × Bool)) (origin : String)
    (probe : ProbeOutcome) : Bool × List (String × Bool) :=
  match mget cache origin with
  | some b => (b, cache)
  | none => (probeBool probe, mset cache origin (probeBool probe))

/-- Which forwarding path a request takes. -/
inductive ProxyPath where
  | http1
  | http2Pooled
deriving DecidableEq, Repr

/-- The route flags consulted by protocol selection. -/
structure ProtocolFlags where
  ws : Bool := false
  forceHttp1 : Bool := false
  autoDetectProtocol : Bool := false
deriving DecidableEq, Repr

/-- The protocol-selection chain of `proxyHttp2Request` (after bypass and
target resolution): `ws` routes go HTTP/1.1; detected WebSocket requests go
HTTP/1.1; `forceHttp1` goes HTTP/1.1; `autoDetectProtocol` consults
`supportsHttp2` and goes HTTP/1.1 when unsupported; otherwise the pooled
HTTP/2 path. -/
def selectPath (o : ProtocolFlags) (h : ReqHeaders) (origin : String)
    (cache : List (String × Bool)) (probe : ProbeOutcome) :
    ProxyPath × List (String × Bool) :=
  if o.ws then (.http1, cache)
  else if isWebSocketRequest h then (.http1, cache)
  else if o.forceHttp1 then (.http1, cache)
  else if o.autoDetectProtocol then
    let r := supportsHttp2 cache origin probe
    if ¬r.1 then (.http1, r.2) else (.http2Pooled, r.2)
  else (.http2Pooled, cache)

/- ### Outbound header construction (`createHttp2Headers` and the header
block of `proxyHttp1Request`) -/

/-- The slice of a Node `IncomingMessage` the header translation reads:
headers (lowercase keys as Node normalizes them), method, and socket facts
(remote address, TLS flag, local port). -/
structure InboundRequest where
  method : Option String := none
  headers : List (String × String) := []
  remoteAddress : String := ""
  encrypted : Bool := false
  localPort : Nat := 0

/-- The target-URL fields the header translation reads (`protocol` keeps its
trailing colon, as in the WHATWG `URL` class). -/
structure TargetURL where
  protocol : String
  host : String

/-- The normalized route options consulted by header construction. -/
structure RouteOptions where
  changeOrigin : Bool := true
  preserveHeaderKeyCase : Bool := false
  headers : Option (List (String × String)) := none
  xfwd : Bool := true
  auth : Option String := none
  ws : Bool := false

/-- The HTTP/2 forbidden-header list of `createHttp2Headers`. -/
def forbiddenHeadersH2 : List String :=
  ["connection", "upgrade", "keep-alive", "transfer-encoding", "proxy-connection"]

/-- The inbound-header copy loop of `createHttp2Headers`: skip
pseudo-headers, skip `host` under `changeOrigin`, skip forbidden headers;
under `preserveHeaderKeyCase` re-find the original key by lowercase match. -/
def copyInboundH2 (req : InboundRequest) (o : RouteOptions)
    (base : List (String × String)) : List (String × String) :=
  req.headers.foldl
    (fun acc kv =>
      if strStartsWith kv.1 ":" then acc
      else if kv.1 = "host" ∧ o.changeOrigin then acc
      else if forbiddenHeadersH2.contains (strLower kv.1) then acc
      else if o.preserveHeaderKeyCase then
        let originalKey := ((req.headers.map Prod.fst).find? (fun k => strLower k = kv.1)).getD kv.1
        mset acc originalKey kv.2
      else mset acc kv.1 kv.2)
    base

/-- Apply the route's custom `headers` object (`Object.assign`). -/
def applyCustomHeaders (custom : Option (List (String × String)))
    (h : List (String × String)) : List (String × String) :=
  match custom with
  | none => h
  | some hs => hs.foldl (fun acc kv => mset acc kv.1 kv.2) h

/-- The `x-forwarded-*` block shared by both paths. -/
def applyXfwd (req : InboundRequest) (h : List (String × String)) :
    List (String × String) :=
  let h1 := mset h "x-forwarded-for" req.remoteAddress
  let h2 := mset h1 "x-forwarded-proto" (if req.encrypted then "https" else "http")
  let h3 := mset h2 "x-forwarded-host" ((mget req.headers "host").getD "")
  mset h3 "x-forwarded-port" (toString req.localPort)

/-- The auth block shared by both paths: when `options.auth` is truthy and
no (truthy) `authorization` header is present, set
`authorization: Basic <base64(auth)>` — with no validation of the auth
string's shape. -/
def applyAuthHeader (auth : Option String) (h : List (String × String)) :
    List (String × String) :=
  match auth with
  | none => h
  | some a =>
    if a = "" then h
    else if truthyS (mget h "authorization") then h
    else mset h "authorization" ("Basic " ++ base64encode a)

/-- `createHttp2Headers`: pseudo-headers, inbound copy, `changeOrigin` host,
custom headers, `x-forwarded-*`, then the auth fill-in — in that order. -/
def createHttp2Headers (req : InboundRequest) (target : TargetURL)
    (o : RouteOptions) : List (String × String) :=
  let base := [(":method", req.method.getD "GET"),
               (":scheme", strDropLast target.protocol),
               (":authority", target.host)]
  let step1 := copyInboundH2 req o base
  let step2 := if o.changeOrigin then mset step1 "host" target.host else step1
  let step3 := applyCustomHeaders o.headers step2
  let step4 := if o.xfwd then applyXfwd req step3 else step3
  applyAuthHeader o.auth step4

/-- The header block of `proxyHttp1Request`: filter pseudo-headers, the
HTTP/1.1 forbidden list (plus `connection`/`upgrade` for non-WebSocket
requests) and falsy values; then `changeOrigin` host, custom headers,
`x-forwarded-*` (the `x-forwarded-for` set is guarded on the remote address
being truthy), then the auth fill-in. -/
def proxyHttp1Headers (req : InboundRequest) (targetHost : String)
    (o : RouteOptions) : List (String × String) :=
  let isWS := o.ws ||
    (match mget req.headers "upgrade" with
      | some u => strLower u = "websocket"
      | none => false)
  let forbidden :=
    if isWS then ["keep-alive", "transfer-encoding", "proxy-connection", "te", "trailer"]
    else ["keep-alive", "transfer-encoding", "proxy-connection", "te", "trailer",
          "connection", "upgrade"]
  let filtered := req.headers.foldl
    (fun acc kv =>
      if strStartsWith kv.1 ":" then acc
      else if forbidden.contains (strLower kv.1) then acc
      else if kv.2 ≠ "" then mset acc kv.1 kv.2
      else acc)
    []
  let step2 := if o.changeOrigin then mset filtered "host" targetHost else filtered
  let step3 := applyCustomHeaders o.headers step2
  let step4 :=
    if o.xfwd then
      let h1 := if req.remoteAddress ≠ "" then
          mset step3 "x-forwarded-for" req.remoteAddress
        else step3
      let h2 := mset h1 "x-forwarded-proto" (if req.encrypted then "https" else "http")
      let h3 := mset h2 "x-forwarded-host" ((mget req.headers "host").getD "")
      mset h3 "x-forwarded-port" (toString req.localPort)
    else step3
  applyAuthHeader o.auth step4

/- ### Per-request timeout (`processProxiedRequest` and the timeout block of
`proxyHttp1Request`) -/

/-- `options.proxyTimeout || options.timeout || 120000`. -/
def jsOrTimeout (proxyTimeout timeout : Option Nat) : Nat :=
  jsOrNat proxyTimeout (jsOrNat timeout 120000)

/-- The guard of the HTTP/1.1 timeout block:
`if (options.timeout || options.proxyTimeout)` — no timer at all otherwise. -/
def http1TimerArmed (timeout proxyTimeout : Option Nat) : Bool :=
  (jsOrNat timeout 0 ≠ 0) || (jsOrNat proxyTimeout 0 ≠ 0)

/-- The events delivered to one pooled-path request after its stream is
created: its gateway timer firing, the upstream `response` headers (with the
upstream status), a stream `error`, or the stream `close`. -/
inductive StreamEvent where
  | fireTimer
  | response (status : Nat)
  | errorEvt
  | closeEvt
deriving DecidableEq, Repr

/-- Client-visible request state on the pooled path: whether the gateway
timer is still armed, whether response headers have been written to the
client (`res.headersSent`), the first status written, and the RST code the
outbound stream was closed with, if any. -/
structure StreamState where
  timerArmed : Bool
  headersSent : Bool
  status : Option Nat
  rstCode : Option Nat
deriving DecidableEq, Repr

/-- State right after `processProxiedRequest` arms the gateway timer. -/
def initStream : StreamState :=
  { timerArmed := true, headersSent := false, status := none, rstCode := none }

/-- The event handlers of `processProxiedRequest`: the timer (one-shot,
only fires while armed) closes the stream with `NGHTTP2_CANCEL` (= 8) and
writes 504 if headers were not yet sent; `response` clears the timer and
writes the upstream status; `error` clears the timer and writes 502 if
possible; `close` clears the timer (and drains the queue, modelled
elsewhere). -/
def streamStep (s : StreamState) : StreamEvent → StreamState
  | .fireTimer =>
    if s.timerArmed then
      let s1 := { s with timerArmed := false, rstCode := some 8 }
      if ¬s1.headersSent then { s1 with headersSent := true, status := some 504 }
      else s1
    else s
  | .response us =>
    { s with timerArmed := false, headersSent := true
             status := if s.headersSent then s.status else some us }
  | .errorEvt =>
    { s with timerArmed := false, headersSent := true
             status := if s.headersSent then s.status else some 502 }
  | .closeEvt => { s with timerArmed := false }

/-- Run a sequence of stream events. -/
def streamRun (s : StreamState) : List StreamEvent → StreamState
  | [] => s
  | e :: es => streamRun (streamStep s e) es

/- ### Cookie rewriting (`rewriteCookie`) -/

/-- Case-insensitive match of the (lowercase) pattern at the head of the
input; returns the rest of the input on success. -/
def matchAttrAt : List Char → List Char → Option (List Char)
  | [], rest => some rest
  | _, [] => none
  | p :: ps, c :: cs => if c.toLower = p then matchAttrAt ps cs else none

/-- `/<pat>=([^;]+)/i.exec`: scan left to right for the first position where
the pattern matches followed by a non-empty run of non-`;` characters;
return the matched text (original case) and the captured value. -/
def execAttr (pat : List Char) : List Char → Option (List Char × List Char)
  | [] => none
  | c :: cs =>
    match matchAttrAt pat (c :: cs) with
    | some rest =>
      let cap := rest.takeWhile (fun ch => ch ≠ ';')
      if cap.isEmpty then execAttr pat cs
      else some ((c :: cs).take (pat.length + cap.length), cap)
    | none => execAttr pat cs

/-- JS `String.prototype.replace` with a plain string pattern: replace the
first occurrence, if any. -/
def replaceFirst (s pat repl : String) : String :=
  match findSubstr pat.toList s.toList with
  | none => s
  | some i => ⟨s.toList.take i ++ repl.toList ++ s.toList.drop (i + pat.toList.length)⟩

/-- A cookie rewrite rule: a plain replacement string or an exact-match
map (`cookieDomainRewrite` / `cookiePathRewrite`; `false`/absent is `none`). -/
inductive RewriteRule where
  | str (s : String)
  | map (m : List (String × String))
deriving DecidableEq, Repr

/-- JS truthiness of a rewrite rule value (the empty string is falsy, any
object is truthy). -/
def ruleTruthy : Option RewriteRule → Bool
  | none => false
  | some (.str s) => s ≠ ""
  | some (.map _) => true

/-- The new value a rule produces for a matched old value: a string rule
replaces unconditionally, a map rule only on an exact key match. -/
def ruleLookup : RewriteRule → String → Option String
  | .str s, _ => some s
  | .map m, old => mget m old

/-- One rewrite pass (`domainRewrite` and `pathRewrite` blocks of
`rewriteCookie` share this shape): exec the attribute regex against the
ORIGINAL cookie, look the captured value up in the rule, and replace the
first occurrence of the matched text in the accumulated result with
`<Attr>=<new>`. -/
def rewritePass (attrPat : List Char) (attrRepl : String) (rule : Option RewriteRule)
    (cookie acc : String) : String :=
  if ruleTruthy rule then
    match rule with
    | none => acc
    | some r =>
      match execAttr attrPat cookie.toList with
      | none => acc
      | some (matched, cap) =>
        match ruleLookup r ⟨cap⟩ with
        | none => acc
        | some newVal => replaceFirst acc ⟨matched⟩ (attrRepl ++ newVal)
  else acc

/-- `rewriteCookie`: short-circuit when both rules are falsy; otherwise the
domain pass then the path pass (each matching against the original cookie,
replacing in the running result). -/
def rewriteCookie (cookie : String) (domainRewrite pathRewrite : Option RewriteRule) :
    String :=
  if ¬ruleTruthy domainRewrite ∧ ¬ruleTruthy pathRewrite then cookie
  else
    let r1 := rewritePass "domain=".toList "Domain=" domainRewrite cookie cookie
    rewritePass "path=".toList "Path=" pathRewrite cookie r1

/- ### Analysis views of the header folds -/

/-- A header-copy fold with a boolean admission predicate; the analysis
normal form of the copy loops of `createHttp2Headers` and
`proxyHttp1Request` (and of `Object.assign` with the constantly-true
predicate). -/
def guardedFold (c : String × String → Bool) (l : List (String × String))
    (base : List (String × String)) : List (String × String) :=
  l.foldl (fun acc kv => if c kv then mset acc kv.1 kv.2 else acc) base

/-- The admission predicate of `createHttp2Headers`' copy loop. -/
def h2CopyPass (o : RouteOptions) (kv : String × String) : Bool :=
  if strStartsWith kv.1 ":" then false
  else if kv.1 = "host" ∧ o.changeOrigin then false
  else if forbiddenHeadersH2.contains (strLower kv.1) then false
  else true

/-- The admission predicate of `proxyHttp1Request`'s copy loop. -/
def http1CopyPass (forbidden : List String) (kv : String × String) : Bool :=
  if strStartsWith kv.1 ":" then false
  else if forbidden.contains (strLower kv.1) then false
  else if kv.2 ≠ "" then true
  else false

/-- The four header names the `xfwd` block assigns. -/
def xfwdKeys : List String :=
  ["x-forwarded-for", "x-forwarded-proto", "x-forwarded-host", "x-forwarded-port"]

/-- The header state of `createHttp2Headers` just before the auth fill-in
(steps: pseudo-headers, inbound copy, `changeOrigin` host, custom headers,
`x-forwarded-*`). -/
def h2PreAuth (req : InboundRequest) (target : TargetURL) (o : RouteOptions) :
    List (String × String) :=
  let base := [(":method", req.method.getD "GET"),
               (":scheme", strDropLast target.protocol),
               (":authority", target.host)]
  let step1 := copyInboundH2 req o base
  let step2 := if o.changeOrigin then mset step1 "host" target.host else step1
  let step3 := applyCustomHeaders o.headers step2
  if o.xfwd then applyXfwd req step3 else step3

/- ### Queue invariants -/

/-- Global invariant tying a reachable queue state to the event trace that
produced it: the map structure is well-formed (duplicate-free keys,
non-empty per-origin lists holding entries of that origin, each list in
enqueue order), entry ids are unique and bounded by the id counter, the
armed timers are exactly the queued entries, the `totalQueued` counter is
exact and bounded, accepted entries carry strictly increasing ids, and
every accepted entry is either still queued or resolved exactly once. -/
structure QueueInv (maxQ : Nat) (s : QState) (evs : List QEvent) : Prop where
  keysNodup : (s.queue.map Prod.fst).Nodup
  listsNonempty : ∀ p ∈ s.queue, p.2 ≠ []
  originsMatch : ∀ p ∈ s.queue, ∀ e ∈ p.2, e.origin = p.1
  sorted : ∀ p ∈ s.queue, p.2.Pairwise (fun a b => a.id < b.id)
  idsBound : ∀ e ∈ allEntries s, e.id < s.nextId
  presentNodup : (idsOf (allEntries s)).Nodup
  timersNodup : s.timers.Nodup
  timersIff : ∀ e, e ∈ s.timers ↔ e ∈ allEntries s
  countEq : s.totalQueued = (allEntries s).length
  countLe : s.totalQueued ≤ maxQ
  enqIncr : (enqueuedIds evs).Pairwise (fun a b => a < b)
  enqBound : ∀ i ∈ enqueuedIds evs, i < s.nextId
  resolvedBound : ∀ i ∈ resolvedIds evs, i < s.nextId
  resolvedNodup : (resolvedIds evs).Nodup
  disjointRP : ∀ i ∈ resolvedIds evs, i ∉ idsOf (allEntries s)
  partitionIff : ∀ i, i ∈ enqueuedIds evs ↔ (i ∈ resolvedIds evs ∨ i ∈ idsOf (allEntries s))

theorem mget_eq_none_iff {α : Type} {m : List (String × α)} {k : String} :
    mget m k = none ↔ k ∉ m.map Prod.fst := by
  induction m with
  | nil => simp [mget]
  | cons p rest ih =>
    obtain ⟨k', v⟩ := p
    by_cases h : k' = k
    · subst h
      simp [mget]
    · simp [mget, h, ih, Ne.symm h]

theorem mset_eq_append {α : Type} {m : List (String × α)} {k : String}
    (h : k ∉ m.map Prod.fst) (v : α) : mset m k v = m ++ [(k, v)] := by
  induction m with
  | nil => simp [mset]
  | cons p rest ih =>
    obtain ⟨k', v'⟩ := p
    simp only [List.map_cons, List.mem_cons] at h
    push_neg at h
    simp [mset, Ne.symm h.1, ih h.2]

theorem mget_of_mem_nodup {α : Type} {m : List (String × α)} {k : String} {l : α}
    (hk : (m.map Prod.fst).Nodup) (h : (k, l) ∈ m) : mget m k = some l := by
  induction m with
  | nil => simp at h
  | cons p rest ih =>
    obtain ⟨k', v'⟩ := p
    simp only [List.map_cons, List.nodup_cons] at hk
    rcases List.mem_cons.mp h with h1 | h1
    · injection h1 with hk hv
      subst hk
      subst hv
      simp [mget]
    · have hne : k' ≠ k := by
        rintro rfl
        exact hk.1 (List.mem_map.mpr ⟨(k', l), h1, rfl⟩)
      simp [mget, hne, ih hk.2 h1]

theorem exists_map_split {α : Type} {m : List (String × α)} {k : String} {l : α}
    (hk : (m.map Prod.fst).Nodup) (h : mget m k = some l) :
    ∃ m₁ m₂, m = m₁ ++ (k, l) :: m₂ ∧ k ∉ m₁.map Prod.fst ∧ k ∉ m₂.map Prod.fst ∧
      (∀ v, mset m k v = m₁ ++ (k, v) :: m₂) ∧ mdel m k = m₁ ++ m₂ := by
  induction m with
  | nil => simp [mget] at h
  | cons p rest ih =>
    obtain ⟨k', v'⟩ := p
    simp only [List.map_cons, List.nodup_cons] at hk
    by_cases hkk : k' = k
    · subst hkk
      have hvl : v' = l := by
        simpa [mget] using h
      subst hvl
      refine ⟨[], rest, by simp, by simp, ?_, ?_, ?_⟩
      · intro hmem
        exact hk.1 hmem
      · intro v
        simp [mset]
      · simp [mdel]
    · simp only [mget, if_neg hkk] at h
      obtain ⟨m₁, m₂, hm, h1, h2, h3, h4⟩ := ih hk.2 h
      refine ⟨(k', v') :: m₁, m₂, by simp [hm], ?_, h2, ?_, ?_⟩
      · simp only [List.map_cons, List.mem_cons]
        push_neg
        exact ⟨Ne.symm hkk, h1⟩
      · intro v
        simp [mset, hkk, h3 v]
      · simp [mdel, hkk, h4]

theorem entriesOf_append (m₁ m₂ : List (String × List QEntry)) :
    entriesOf (m₁ ++ m₂) = entriesOf m₁ ++ entriesOf m₂ := by
  simp [entriesOf]

theorem entriesOf_cons (p : String × List QEntry) (m : List (String × List QEntry)) :
    entriesOf (p :: m) = p.2 ++ entriesOf m := by
  simp [entriesOf]

theorem mem_entriesOf {e : QEntry} {m : List (String × List QEntry)} :
    e ∈ entriesOf m ↔ ∃ p ∈ m, e ∈ p.2 := by
  simp only [entriesOf, List.mem_flatten, List.mem_map]
  constructor
  · rintro ⟨l, ⟨p, hp, rfl⟩, he⟩
    exact ⟨p, hp, he⟩
  · rintro ⟨p, hp, he⟩
    exact ⟨p.2, ⟨p, hp, rfl⟩, he⟩

theorem idsOf_append (l₁ l₂ : List QEntry) :
    idsOf (l₁ ++ l₂) = idsOf l₁ ++ idsOf l₂ := by
  simp [idsOf]

theorem mem_idsOf {i : Nat} {l : List QEntry} :
    i ∈ idsOf l ↔ ∃ e ∈ l, e.id = i := by
  simp [idsOf]

theorem resolvedIds_append (a b : List QEvent) :
    resolvedIds (a ++ b) = resolvedIds a ++ resolvedIds b := by
  simp [resolvedIds]

theorem enqueuedIds_append (a b : List QEvent) :
    enqueuedIds (a ++ b) = enqueuedIds a ++ enqueuedIds b := by
  simp [enqueuedIds]

theorem resolvedIds_map_cleared (l : List QEntry) :
    resolvedIds (l.map QEvent.cleared503) = idsOf l := by
  induction l with
  | nil => rfl
  | cons e rest ih => simp [resolvedIds, resolutionId, idsOf] at ih ⊢; exact ih

theorem foldl_erase_eq_nil {α : Type} [DecidableEq α] :
    ∀ (l ts : List α), ts.Nodup → (∀ x ∈ ts, x ∈ l) →
      l.foldl (fun acc e => acc.erase e) ts = [] := by
  intro l
  induction l with
  | nil =>
    intro ts _ hsub
    simp only [List.foldl_nil]
    exact List.eq_nil_iff_forall_not_mem.mpr (fun x hx => by simpa using hsub x hx)
  | cons e es ih =>
    intro ts hnd hsub
    simp only [List.foldl_cons]
    refine ih (ts.erase e) (hnd.erase e) ?_
    intro x hx
    have hxts : x ∈ ts := List.mem_of_mem_erase hx
    have hxne : x ≠ e := (List.Nodup.mem_erase_iff hnd).mp hx |>.1
    rcases List.mem_cons.mp (hsub x hxts) with h | h
    · exact absurd h hxne
    · exact h

@[simp]
theorem enqueuedIds_warn (o : String) : enqueuedIds [QEvent.warnQueueFull o] = [] := rfl

@[simp]
theorem enqueuedIds_enq (e : QEntry) : enqueuedIds [QEvent.enqueued e] = [e.id] := rfl

@[simp]
theorem enqueuedIds_res (e : QEntry) : enqueuedIds [QEvent.resumed e] = [] := rfl

@[simp]
theorem enqueuedIds_to (e : QEntry) : enqueuedIds [QEvent.timedOut503 e] = [] := rfl

@[simp]
theorem enqueuedIds_cl (e : QEntry) : enqueuedIds [QEvent.cleared503 e] = [] := rfl

@[simp]
theorem resolvedIds_warn (o : String) : resolvedIds [QEvent.warnQueueFull o] = [] := rfl

@[simp]
theorem resolvedIds_enq (e : QEntry) : resolvedIds [QEvent.enqueued e] = [] := rfl

@[simp]
theorem resolvedIds_res (e : QEntry) : resolvedIds [QEvent.resumed e] = [e.id] := rfl

@[simp]
theorem resolvedIds_to (e : QEntry) : resolvedIds [QEvent.timedOut503 e] = [e.id] := rfl

@[simp]
theorem resolvedIds_cl (e : QEntry) : resolvedIds [QEvent.cleared503 e] = [e.id] := rfl

theorem mem_idsOf_of_mem {e : QEntry} {l : List QEntry} (h : e ∈ l) : e.id ∈ idsOf l :=
  mem_idsOf.mpr ⟨e, h, rfl⟩

/-- Common tail of the two accepted-enqueue cases: given the membership and
permutation facts about the updated per-origin map, the invariant carries
over to the post-enqueue state. -/
theorem qinv_enqueue_finish {maxQ : Nat} {s : QState} {evs : List QEvent} {o : String}
    {qnew : List (String × List QEntry)}
    (inv : QueueInv maxQ s evs) (hlt : s.totalQueued < maxQ)
    (P1 : ∀ x, x ∈ entriesOf qnew ↔ x ∈ allEntries s ∨ x = (⟨s.nextId, o⟩ : QEntry))
    (P3 : List.Perm (idsOf (entriesOf qnew)) (idsOf (allEntries s) ++ [s.nextId]))
    (K : (qnew.map Prod.fst).Nodup)
    (NE : ∀ p ∈ qnew, p.2 ≠ [])
    (OM : ∀ p ∈ qnew, ∀ x ∈ p.2, x.origin = p.1)
    (SO : ∀ p ∈ qnew, p.2.Pairwise (fun a b => a.id < b.id)) :
    QueueInv maxQ
      ⟨qnew, (⟨s.nextId, o⟩ : QEntry) :: s.timers, s.totalQueued + 1, s.nextId + 1⟩
      (evs ++ [QEvent.enqueued ⟨s.nextId, o⟩]) := by
  have hidOldLt : ∀ i ∈ idsOf (allEntries s), i < s.nextId := by
    intro i hi
    obtain ⟨x, hx, rfl⟩ := mem_idsOf.mp hi
    exact inv.idsBound x hx
  have heNotOld : (⟨s.nextId, o⟩ : QEntry) ∉ allEntries s := by
    intro hmem
    exact absurd (inv.idsBound _ hmem) (by simp)
  refine ⟨K, NE, OM, SO, ?_, ?_, ?_, ?_, ?_, ?_, ?_, ?_, ?_, ?_, ?_, ?_⟩
  · -- idsBound
    intro x hx
    rcases (P1 x).mp hx with h | rfl
    · exact Nat.lt_succ_of_lt (inv.idsBound x h)
    · exact Nat.lt_succ_self _
  · -- presentNodup
    refine P3.nodup_iff.mpr ?_
    rw [List.nodup_append]
    refine ⟨inv.presentNodup, List.nodup_singleton _, ?_⟩
    intro a ha hb
    rw [List.mem_singleton] at hb
    subst hb
    exact absurd (hidOldLt _ ha) (by simp)
  · -- timersNodup
    rw [List.nodup_cons]
    refine ⟨?_, inv.timersNodup⟩
    intro hmem
    exact heNotOld ((inv.timersIff _).mp hmem)
  · -- timersIff
    intro x
    rw [List.mem_cons]
    change _ ↔ x ∈ entriesOf qnew
    rw [P1 x, inv.timersIff x]
    tauto
  · -- countEq
    have hlen : (idsOf (entriesOf qnew)).length = (idsOf (allEntries s)).length + 1 := by
      rw [P3.length_eq]
      simp
    simp only [idsOf, List.length_map] at hlen
    change s.totalQueued + 1 = (entriesOf qnew).length
    rw [hlen, ← inv.countEq]
  · -- countLe
    change s.totalQueued + 1 ≤ maxQ
    omega
  · -- enqIncr
    rw [enqueuedIds_append, enqueuedIds_enq]
    rw [List.pairwise_append]
    refine ⟨inv.enqIncr, List.pairwise_singleton _ _, ?_⟩
    intro a ha b hb
    rw [List.mem_singleton] at hb
    subst hb
    exact inv.enqBound a ha
  · -- enqBound
    intro i hi
    rw [enqueuedIds_append, enqueuedIds_enq, List.mem_append, List.mem_singleton] at hi
    rcases hi with h | rfl
    · exact Nat.lt_succ_of_lt (inv.enqBound i h)
    · exact Nat.lt_succ_self _
  · -- resolvedBound
    intro i hi
    rw [resolvedIds_append, resolvedIds_enq, List.append_nil] at hi
    exact Nat.lt_succ_of_lt (inv.resolvedBound i hi)
  · -- resolvedNodup
    rw [resolvedIds_append, resolvedIds_enq, List.append_nil]
    exact inv.resolvedNodup
  · -- disjointRP
    intro i hi hmem
    rw [resolvedIds_append, resolvedIds_enq, List.append_nil] at hi
    have : i ∈ idsOf (allEntries s) ++ [s.nextId] := P3.mem_iff.mp hmem
    rw [List.mem_append, List.mem_singleton] at this
    rcases this with h | rfl
    · exact inv.disjointRP i hi h
    · exact absurd (inv.resolvedBound _ hi) (by simp)
  · -- partitionIff
    intro i
    rw [enqueuedIds_append, enqueuedIds_enq, resolvedIds_append, resolvedIds_enq,
      List.append_nil, List.mem_append, List.mem_singleton]
    have hmem : i ∈ idsOf (entriesOf qnew) ↔ i ∈ idsOf (allEntries s) ∨ i = s.nextId := by
      rw [P3.mem_iff, List.mem_append, List.mem_singleton]
    change _ ∨ i = s.nextId ↔ _ ∨ i ∈ idsOf (entriesOf qnew)
    rw [hmem]
    constructor
    · rintro (h | rfl)
      · rcases (inv.partitionIff i).mp h with h1 | h1
        · exact Or.inl h1
        · exact Or.inr (Or.inl h1)
      · exact Or.inr (Or.inr rfl)
    · rintro (h | h | rfl)
      · exact Or.inl ((inv.partitionIff i).mpr (Or.inl h))
      · exact Or.inl ((inv.partitionIff i).mpr (Or.inr h))
      · exact Or.inr rfl

theorem perm_snoc_middle {α : Type} (a : α) (A B C : List α) :
    List.Perm (A ++ ((B ++ [a]) ++ C)) ((A ++ (B ++ C)) ++ [a]) := by
  have h1 : A ++ ((B ++ [a]) ++ C) = (A ++ B) ++ a :: C := by simp
  have h2 : (A ++ (B ++ C)) ++ [a] = ((A ++ B) ++ C) ++ a :: ([] : List α) := by simp
  rw [h1, h2]
  refine List.Perm.trans List.perm_middle ?_
  refine List.Perm.symm (List.Perm.trans List.perm_middle ?_)
  simp

theorem qinv_enqueue {maxQ : Nat} {s : QState} {evs : List QEvent}
    (inv : QueueInv maxQ s evs) (o : String) :
    QueueInv maxQ (enqueue maxQ o s).2.1 (evs ++ (enqueue maxQ o s).2.2) := by
  by_cases hfull : s.totalQueued ≥ maxQ
  · simp only [enqueue, if_pos hfull]
    refine ⟨inv.keysNodup, inv.listsNonempty, inv.originsMatch, inv.sorted, inv.idsBound,
      inv.presentNodup, inv.timersNodup, inv.timersIff, inv.countEq, inv.countLe,
      ?_, ?_, ?_, ?_, ?_, ?_⟩
    · rw [enqueuedIds_append, enqueuedIds_warn, List.append_nil]
      exact inv.enqIncr
    · rw [enqueuedIds_append, enqueuedIds_warn, List.append_nil]
      exact inv.enqBound
    · rw [resolvedIds_append, resolvedIds_warn, List.append_nil]
      exact inv.resolvedBound
    · rw [resolvedIds_append, resolvedIds_warn, List.append_nil]
      exact inv.resolvedNodup
    · intro i hi
      rw [resolvedIds_append, resolvedIds_warn, List.append_nil] at hi
      exact inv.disjointRP i hi
    · intro i
      rw [enqueuedIds_append, enqueuedIds_warn, List.append_nil,
        resolvedIds_append, resolvedIds_warn, List.append_nil]
      exact inv.partitionIff i
  · have hlt : s.totalQueued < maxQ := Nat.lt_of_not_le hfull
    have hgoal :
        (enqueue maxQ o s).2.1 =
          ⟨mset s.queue o ((mget s.queue o).getD [] ++ [⟨s.nextId, o⟩]),
            (⟨s.nextId, o⟩ : QEntry) :: s.timers, s.totalQueued + 1, s.nextId + 1⟩ ∧
        (enqueue maxQ o s).2.2 = [QEvent.enqueued ⟨s.nextId, o⟩] := by
      simp [enqueue, hfull]
    rw [hgoal.1, hgoal.2]
    rcases hmg : mget s.queue o with _ | l
    · -- no list for this origin yet
      have hnotin : o ∉ s.queue.map Prod.fst := mget_eq_none_iff.mp hmg
      have hq : mset s.queue o ((none : Option (List QEntry)).getD [] ++ [⟨s.nextId, o⟩]) =
          s.queue ++ [(o, [⟨s.nextId, o⟩])] := by
        simp only [Option.getD_none, List.nil_append]
        exact mset_eq_append hnotin _
      rw [hq]
      have hE : entriesOf (s.queue ++ [(o, [⟨s.nextId, o⟩])]) =
          allEntries s ++ [⟨s.nextId, o⟩] := by
        rw [entriesOf_append, allEntries]
        simp [entriesOf]
      refine qinv_enqueue_finish inv hlt ?_ ?_ ?_ ?_ ?_ ?_
      · intro x
        rw [hE, List.mem_append, List.mem_singleton]
      · rw [hE, idsOf_append]
        exact List.Perm.refl _
      · rw [List.map_append, List.nodup_append]
        refine ⟨inv.keysNodup, by simp, ?_⟩
        intro a ha hb
        simp only [List.map_cons, List.map_nil, List.mem_singleton] at hb
        subst hb
        exact hnotin ha
      · intro p hp
        rcases List.mem_append.mp hp with h | h
        · exact inv.listsNonempty p h
        · rw [List.mem_singleton] at h
          subst h
          simp
      · intro p hp x hx
        rcases List.mem_append.mp hp with h | h
        · exact inv.originsMatch p h x hx
        · rw [List.mem_singleton] at h
          subst h
          rw [List.mem_singleton] at hx
          subst hx
          rfl
      · intro p hp
        rcases List.mem_append.mp hp with h | h
        · exact inv.sorted p h
        · rw [List.mem_singleton] at h
          subst h
          exact List.pairwise_singleton _ _
    · -- the origin already has a list
      obtain ⟨m₁, m₂, hqeq, hnm₁, hnm₂, hms, _⟩ := exists_map_split inv.keysNodup hmg
      have hq : mset s.queue o ((some l).getD [] ++ [⟨s.nextId, o⟩]) =
          m₁ ++ (o, l ++ [⟨s.nextId, o⟩]) :: m₂ := by
        simp only [Option.getD_some]
        exact hms _
      rw [hq]
      have hold : allEntries s = entriesOf m₁ ++ (l ++ entriesOf m₂) := by
        rw [allEntries, hqeq, entriesOf_append, entriesOf_cons]
      have hnew : entriesOf (m₁ ++ (o, l ++ [⟨s.nextId, o⟩]) :: m₂) =
          entriesOf m₁ ++ ((l ++ [⟨s.nextId, o⟩]) ++ entriesOf m₂) := by
        rw [entriesOf_append, entriesOf_cons]
      have hmid : (o, l) ∈ s.queue := by
        rw [hqeq]
        exact List.mem_append_right _ (List.mem_cons_self _ _)
      have hlsub : ∀ x ∈ l, x ∈ allEntries s := by
        intro x hx
        rw [hold]
        exact List.mem_append_right _ (List.mem_append_left _ hx)
      refine qinv_enqueue_finish inv hlt ?_ ?_ ?_ ?_ ?_ ?_
      · intro x
        rw [hnew, hold]
        simp only [List.mem_append, List.mem_singleton]
        tauto
      · rw [hnew, hold]
        simp only [idsOf_append]
        have := perm_snoc_middle (s.nextId) (idsOf (entriesOf m₁)) (idsOf l)
          (idsOf (entriesOf m₂))
        simpa [idsOf] using this
      · have hkeys : (m₁ ++ (o, l ++ [⟨s.nextId, o⟩]) :: m₂).map Prod.fst =
            s.queue.map Prod.fst := by
          rw [hqeq]
          simp
        rw [hkeys]
        exact inv.keysNodup
      · intro p hp
        rcases List.mem_append.mp hp with h | h
        · exact inv.listsNonempty p (hqeq ▸ List.mem_append_left _ h)
        · rcases List.mem_cons.mp h with h1 | h1
          · subst h1
            simp
          · exact inv.listsNonempty p
              (hqeq ▸ List.mem_append_right _ (List.mem_cons_of_mem _ h1))
      · intro p hp x hx
        rcases List.mem_append.mp hp with h | h
        · exact inv.originsMatch p (hqeq ▸ List.mem_append_left _ h) x hx
        · rcases List.mem_cons.mp h with h1 | h1
          · subst h1
            simp only at hx
            rcases List.mem_append.mp hx with h2 | h2
            · exact inv.originsMatch (o, l) hmid x h2
            · rw [List.mem_singleton] at h2
              subst h2
              rfl
          · exact inv.originsMatch p
              (hqeq ▸ List.mem_append_right _ (List.mem_cons_of_mem _ h1)) x hx
      · intro p hp
        rcases List.mem_append.mp hp with h | h
        · exact inv.sorted p (hqeq ▸ List.mem_append_left _ h)
        · rcases List.mem_cons.mp h with h1 | h1
          · subst h1
            simp only
            rw [List.pairwise_append]
            refine ⟨inv.sorted (o, l) hmid, List.pairwise_singleton _ _, ?_⟩
            intro a ha b hb
            rw [List.mem_singleton] at hb
            subst hb
            exact inv.idsBound a (hlsub a ha)
          · exact inv.sorted p
              (hqeq ▸ List.mem_append_right _ (List.mem_cons_of_mem _ h1))

theorem perm_erase_middle {α : Type} (a : α) (A B₁ B₂ C : List α) :
    List.Perm (A ++ ((B₁ ++ a :: B₂) ++ C)) (a :: (A ++ ((B₁ ++ B₂) ++ C))) := by
  have h1 : A ++ ((B₁ ++ a :: B₂) ++ C) = (A ++ B₁) ++ a :: (B₂ ++ C) := by simp
  rw [h1]
  refine List.Perm.trans List.perm_middle ?_
  apply List.Perm.cons
  have h2 : (A ++ B₁) ++ (B₂ ++ C) = A ++ ((B₁ ++ B₂) ++ C) := by simp
  rw [h2]

/-- Common tail of entry removal (dequeue-and-resume, or timeout): given the
membership and permutation facts about the updated map, and a resolving
event for the removed entry, the invariant carries over. -/
theorem qinv_remove_finish {maxQ : Nat} {s : QState} {evs : List QEvent}
    {qnew : List (String × List QEntry)} {e : QEntry} {ev : QEvent}
    (inv : QueueInv maxQ s evs)
    (hev1 : resolutionId ev = some e.id) (hev2 : enqueueId ev = none)
    (he : e ∈ allEntries s)
    (P1 : ∀ x, x ∈ entriesOf qnew ↔ x ∈ allEntries s ∧ x ≠ e)
    (P3 : List.Perm (idsOf (allEntries s)) (e.id :: idsOf (entriesOf qnew)))
    (K : (qnew.map Prod.fst).Nodup)
    (NE : ∀ p ∈ qnew, p.2 ≠ [])
    (OM : ∀ p ∈ qnew, ∀ x ∈ p.2, x.origin = p.1)
    (SO : ∀ p ∈ qnew, p.2.Pairwise (fun a b => a.id < b.id)) :
    QueueInv maxQ ⟨qnew, s.timers.erase e, s.totalQueued - 1, s.nextId⟩ (evs ++ [ev]) := by
  have hres1 : resolvedIds [ev] = [e.id] := by
    simp [resolvedIds, List.filterMap_cons, hev1]
  have henq1 : enqueuedIds [ev] = [] := by
    simp [enqueuedIds, List.filterMap_cons, hev2]
  have hcons : (e.id :: idsOf (entriesOf qnew)).Nodup := P3.nodup_iff.mp inv.presentNodup
  have heidnot : e.id ∉ idsOf (entriesOf qnew) := (List.nodup_cons.mp hcons).1
  have hnewsub : ∀ i ∈ idsOf (entriesOf qnew), i ∈ idsOf (allEntries s) := by
    intro i hi
    exact P3.mem_iff.mpr (List.mem_cons_of_mem _ hi)
  have heid : e.id ∈ idsOf (allEntries s) := mem_idsOf_of_mem he
  refine ⟨K, NE, OM, SO, ?_, ?_, ?_, ?_, ?_, ?_, ?_, ?_, ?_, ?_, ?_, ?_⟩
  · -- idsBound
    intro x hx
    exact inv.idsBound x ((P1 x).mp hx).1
  · -- presentNodup
    exact (List.nodup_cons.mp hcons).2
  · -- timersNodup
    exact inv.timersNodup.erase e
  · -- timersIff
    intro x
    change _ ↔ x ∈ entriesOf qnew
    rw [List.Nodup.mem_erase_iff inv.timersNodup, inv.timersIff x, P1 x]
    tauto
  · -- countEq
    have hlen := P3.length_eq
    simp only [idsOf, List.length_map, List.length_cons] at hlen
    change s.totalQueued - 1 = (entriesOf qnew).length
    rw [inv.countEq, hlen]
    omega
  · -- countLe
    change s.totalQueued - 1 ≤ maxQ
    exact le_trans (Nat.sub_le _ _) inv.countLe
  · -- enqIncr
    rw [enqueuedIds_append, henq1, List.append_nil]
    exact inv.enqIncr
  · -- enqBound
    intro i hi
    rw [enqueuedIds_append, henq1, List.append_nil] at hi
    exact inv.enqBound i hi
  · -- resolvedBound
    intro i hi
    rw [resolvedIds_append, hres1, List.mem_append, List.mem_singleton] at hi
    rcases hi with h | rfl
    · exact inv.resolvedBound i h
    · exact inv.idsBound e he
  · -- resolvedNodup
    rw [resolvedIds_append, hres1, List.nodup_append]
    refine ⟨inv.resolvedNodup, List.nodup_singleton _, ?_⟩
    intro i hi hj
    rw [List.mem_singleton] at hj
    subst hj
    exact inv.disjointRP _ hi heid
  · -- disjointRP
    intro i hi hmem
    rw [resolvedIds_append, hres1, List.mem_append, List.mem_singleton] at hi
    rcases hi with h | rfl
    · exact inv.disjointRP i h (hnewsub i hmem)
    · exact heidnot hmem
  · -- partitionIff
    intro i
    rw [enqueuedIds_append, henq1, List.append_nil, resolvedIds_append, hres1]
    change _ ↔ _ ∨ i ∈ idsOf (entriesOf qnew)
    have hml : i ∈ idsOf (allEntries s) ↔ i = e.id ∨ i ∈ idsOf (entriesOf qnew) := by
      rw [P3.mem_iff, List.mem_cons]
    have hpart := inv.partitionIff i
    rw [hml] at hpart
    rw [hpart, List.mem_append, List.mem_singleton]
    tauto

theorem qinv_dequeue {maxQ : Nat} {s : QState} {evs : List QEvent}
    (inv : QueueInv maxQ s evs) (o : String) :
    QueueInv maxQ (dequeueQ o s).2.1 (evs ++ (dequeueQ o s).2.2) := by
  rcases hmg : mget s.queue o with _ | l
  · have h1 : (dequeueQ o s).2.1 = s := by simp [dequeueQ, hmg]
    have h2 : (dequeueQ o s).2.2 = [] := by simp [dequeueQ, hmg]
    rw [h1, h2, List.append_nil]
    exact inv
  rcases l with _ | ⟨e, rest⟩
  · have h1 : (dequeueQ o s).2.1 = s := by simp [dequeueQ, hmg]
    have h2 : (dequeueQ o s).2.2 = [] := by simp [dequeueQ, hmg]
    rw [h1, h2, List.append_nil]
    exact inv
  obtain ⟨m₁, m₂, hqeq, hnm₁, hnm₂, hms, hmd⟩ := exists_map_split inv.keysNodup hmg
  have h1 : (dequeueQ o s).2.1 =
      ⟨if rest.isEmpty then mdel s.queue o else mset s.queue o rest,
        s.timers.erase e, s.totalQueued - 1, s.nextId⟩ := by
    simp [dequeueQ, hmg]
  have h2 : (dequeueQ o s).2.2 = [QEvent.resumed e] := by simp [dequeueQ, hmg]
  rw [h1, h2]
  have hmid : (o, e :: rest) ∈ s.queue := by
    rw [hqeq]
    exact List.mem_append_right _ (List.mem_cons_self _ _)
  have hold : allEntries s = entriesOf m₁ ++ ((e :: rest) ++ entriesOf m₂) := by
    rw [allEntries, hqeq, entriesOf_append, entriesOf_cons]
  have hnew : entriesOf (if rest.isEmpty then mdel s.queue o else mset s.queue o rest) =
      entriesOf m₁ ++ (rest ++ entriesOf m₂) := by
    by_cases hre : rest.isEmpty
    · rw [if_pos hre, hmd, entriesOf_append]
      rw [List.isEmpty_iff] at hre
      subst hre
      simp
    · rw [if_neg hre, hms, entriesOf_append, entriesOf_cons]
  have he : e ∈ allEntries s := by
    rw [hold]
    exact List.mem_append_right _ (List.mem_append_left _ (List.mem_cons_self _ _))
  have P3 : List.Perm (idsOf (allEntries s))
      (e.id :: idsOf (entriesOf (if rest.isEmpty then mdel s.queue o else mset s.queue o rest))) := by
    rw [hold, hnew]
    simp only [idsOf, List.map_append, List.map_cons]
    exact List.perm_middle
  have hcons := P3.nodup_iff.mp inv.presentNodup
  have heidnot := (List.nodup_cons.mp hcons).1
  have P1 : ∀ x, x ∈ entriesOf (if rest.isEmpty then mdel s.queue o else mset s.queue o rest) ↔
      x ∈ allEntries s ∧ x ≠ e := by
    intro x
    constructor
    · intro hx
      have hxold : x ∈ allEntries s := by
        rw [hold]
        rw [hnew] at hx
        rcases List.mem_append.mp hx with h | h
        · exact List.mem_append_left _ h
        · rcases List.mem_append.mp h with h1 | h1
          · exact List.mem_append_right _ (List.mem_append_left _ (List.mem_cons_of_mem _ h1))
          · exact List.mem_append_right _ (List.mem_append_right _ h1)
      refine ⟨hxold, ?_⟩
      rintro rfl
      exact heidnot (mem_idsOf_of_mem hx)
    · rintro ⟨hxold, hxne⟩
      rw [hnew]
      rw [hold] at hxold
      rcases List.mem_append.mp hxold with h | h
      · exact List.mem_append_left _ h
      · rcases List.mem_append.mp h with h1 | h1
        · rcases List.mem_cons.mp h1 with h2 | h2
          · exact absurd h2 hxne
          · exact List.mem_append_right _ (List.mem_append_left _ h2)
        · exact List.mem_append_right _ (List.mem_append_right _ h1)
  have K : ((if rest.isEmpty then mdel s.queue o else mset s.queue o rest).map Prod.fst).Nodup := by
    by_cases hre : rest.isEmpty
    · rw [if_pos hre, hmd]
      have hsub : List.Sublist ((m₁ ++ m₂).map Prod.fst) (s.queue.map Prod.fst) := by
        rw [hqeq]
        simp only [List.map_append, List.map_cons]
        exact List.Sublist.append_left (List.sublist_cons_self _ _) _
      exact inv.keysNodup.sublist hsub
    · rw [if_neg hre, hms]
      have hkeys : (m₁ ++ (o, rest) :: m₂).map Prod.fst = s.queue.map Prod.fst := by
        rw [hqeq]
        simp
      rw [hkeys]
      exact inv.keysNodup
  have NE : ∀ p ∈ (if rest.isEmpty then mdel s.queue o else mset s.queue o rest), p.2 ≠ [] := by
    by_cases hre : rest.isEmpty
    · rw [if_pos hre, hmd]
      intro p hp
      rcases List.mem_append.mp hp with h | h
      · exact inv.listsNonempty p (hqeq ▸ List.mem_append_left _ h)
      · exact inv.listsNonempty p
          (hqeq ▸ List.mem_append_right _ (List.mem_cons_of_mem _ h))
    · rw [if_neg hre, hms]
      intro p hp
      rcases List.mem_append.mp hp with h | h
      · exact inv.listsNonempty p (hqeq ▸ List.mem_append_left _ h)
      · rcases List.mem_cons.mp h with h1 | h1
        · subst h1
          simpa [List.isEmpty_iff] using hre
        · exact inv.listsNonempty p
            (hqeq ▸ List.mem_append_right _ (List.mem_cons_of_mem _ h1))
  have OM : ∀ p ∈ (if rest.isEmpty then mdel s.queue o else mset s.queue o rest),
      ∀ x ∈ p.2, x.origin = p.1 := by
    by_cases hre : rest.isEmpty
    · rw [if_pos hre, hmd]
      intro p hp
      rcases List.mem_append.mp hp with h | h
      · exact inv.originsMatch p (hqeq ▸ List.mem_append_left _ h)
      · exact inv.originsMatch p
          (hqeq ▸ List.mem_append_right _ (List.mem_cons_of_mem _ h))
    · rw [if_neg hre, hms]
      intro p hp
      rcases List.mem_append.mp hp with h | h
      · exact inv.originsMatch p (hqeq ▸ List.mem_append_left _ h)
      · rcases List.mem_cons.mp h with h1 | h1
        · subst h1
          intro x hx
          exact inv.originsMatch (o, e :: rest) hmid x (List.mem_cons_of_mem _ hx)
        · exact inv.originsMatch p
            (hqeq ▸ List.mem_append_right _ (List.mem_cons_of_mem _ h1))
  have SO : ∀ p ∈ (if rest.isEmpty then mdel s.queue o else mset s.queue o rest),
      p.2.Pairwise (fun a b => a.id < b.id) := by
    by_cases hre : rest.isEmpty
    · rw [if_pos hre, hmd]
      intro p hp
      rcases List.mem_append.mp hp with h | h
      · exact inv.sorted p (hqeq ▸ List.mem_append_left _ h)
      · exact inv.sorted p
          (hqeq ▸ List.mem_append_right _ (List.mem_cons_of_mem _ h))
    · rw [if_neg hre, hms]
      intro p hp
      rcases List.mem_append.mp hp with h | h
      · exact inv.sorted p (hqeq ▸ List.mem_append_left _ h)
      · rcases List.mem_cons.mp h with h1 | h1
        · subst h1
          exact (inv.sorted (o, e :: rest) hmid).of_cons
        · exact inv.sorted p
            (hqeq ▸ List.mem_append_right _ (List.mem_cons_of_mem _ h1))
  exact qinv_remove_finish inv rfl rfl he P1 P3 K NE OM SO

theorem qinv_fire {maxQ : Nat} {s : QState} {evs : List QEvent}
    (inv : QueueInv maxQ s evs) (e : QEntry) :
    QueueInv maxQ (fireTimeout e s).1 (evs ++ (fireTimeout e s).2) := by
  by_cases ht : e ∈ s.timers
  case neg =>
    have h1 : (fireTimeout e s).1 = s := by simp [fireTimeout, ht]
    have h2 : (fireTimeout e s).2 = [] := by simp [fireTimeout, ht]
    rw [h1, h2, List.append_nil]
    exact inv
  case pos =>
    have he : e ∈ allEntries s := (inv.timersIff e).mp ht
    obtain ⟨p, hp, hep⟩ := mem_entriesOf.mp he
    obtain ⟨k, l0⟩ := p
    change e ∈ l0 at hep
    have hko : k = e.origin := (inv.originsMatch (k, l0) hp e hep).symm
    subst hko
    have hmg : mget s.queue e.origin = some l0 := mget_of_mem_nodup inv.keysNodup hp
    obtain ⟨m₁, m₂, hqeq, hnm₁, hnm₂, hms, hmd⟩ := exists_map_split inv.keysNodup hmg
    have hentNodup : (allEntries s).Nodup := by
      have hids := inv.presentNodup
      simp only [idsOf] at hids
      exact hids.of_map _
    have hl0nodup : l0.Nodup := by
      have h := hentNodup
      rw [allEntries, hqeq, entriesOf_append, entriesOf_cons] at h
      exact (h.of_append_right).of_append_left
    obtain ⟨l₁, l₂, hl0⟩ := List.append_of_mem hep
    have hne₁ : e ∉ l₁ := by
      rw [hl0] at hl0nodup
      rw [List.nodup_append] at hl0nodup
      intro hmem
      exact hl0nodup.2.2 hmem (List.mem_cons_self _ _)
    have hER : l0.erase e = l₁ ++ l₂ := by
      rw [hl0, List.erase_append_right _ hne₁, List.erase_cons_head]
    have h1 : (fireTimeout e s).1 =
        ⟨if (l0.erase e).isEmpty then mdel s.queue e.origin else mset s.queue e.origin (l0.erase e),
          s.timers.erase e, s.totalQueued - 1, s.nextId⟩ := by
      simp [fireTimeout, removeRequest, ht, hmg, hep]
    have h2 : (fireTimeout e s).2 = [QEvent.timedOut503 e] := by
      simp [fireTimeout, ht]
    rw [h1, h2, hER]
    have hold2 : allEntries s = entriesOf m₁ ++ ((l₁ ++ e :: l₂) ++ entriesOf m₂) := by
      rw [allEntries, hqeq, entriesOf_append, entriesOf_cons, hl0]
    have hnew : entriesOf (if (l₁ ++ l₂).isEmpty then mdel s.queue e.origin
        else mset s.queue e.origin (l₁ ++ l₂)) =
        entriesOf m₁ ++ ((l₁ ++ l₂) ++ entriesOf m₂) := by
      by_cases hre : (l₁ ++ l₂).isEmpty
      · rw [if_pos hre, hmd, entriesOf_append]
        rw [List.isEmpty_iff] at hre
        rw [hre]
        simp
      · rw [if_neg hre, hms, entriesOf_append, entriesOf_cons]
    have P3 : List.Perm (idsOf (allEntries s))
        (e.id :: idsOf (entriesOf (if (l₁ ++ l₂).isEmpty then mdel s.queue e.origin
          else mset s.queue e.origin (l₁ ++ l₂)))) := by
      rw [hold2, hnew]
      simp only [idsOf, List.map_append, List.map_cons]
      exact perm_erase_middle e.id _ _ _ _
    have hcons := P3.nodup_iff.mp inv.presentNodup
    have heidnot := (List.nodup_cons.mp hcons).1
    have P1 : ∀ x, x ∈ entriesOf (if (l₁ ++ l₂).isEmpty then mdel s.queue e.origin
        else mset s.queue e.origin (l₁ ++ l₂)) ↔ x ∈ allEntries s ∧ x ≠ e := by
      intro x
      constructor
      · intro hx
        have hxold : x ∈ allEntries s := by
          rw [hold2]
          rw [hnew] at hx
          rcases List.mem_append.mp hx with h | h
          · exact List.mem_append_left _ h
          · rcases List.mem_append.mp h with h1 | h1
            · rcases List.mem_append.mp h1 with h2 | h2
              · exact List.mem_append_right _
                  (List.mem_append_left _ (List.mem_append_left _ h2))
              · exact List.mem_append_right _ (List.mem_append_left _
                  (List.mem_append_right _ (List.mem_cons_of_mem _ h2)))
            · exact List.mem_append_right _ (List.mem_append_right _ h1)
        refine ⟨hxold, ?_⟩
        rintro rfl
        exact heidnot (mem_idsOf_of_mem hx)
      · rintro ⟨hxold, hxne⟩
        rw [hnew]
        rw [hold2] at hxold
        rcases List.mem_append.mp hxold with h | h
        · exact List.mem_append_left _ h
        · rcases List.mem_append.mp h with h1 | h1
          · rcases List.mem_append.mp h1 with h2 | h2
            · exact List.mem_append_right _
                (List.mem_append_left _ (List.mem_append_left _ h2))
            · rcases List.mem_cons.mp h2 with h3 | h3
              · exact absurd h3 hxne
              · exact List.mem_append_right _ (List.mem_append_left _
                  (List.mem_append_right _ h3))
          · exact List.mem_append_right _ (List.mem_append_right _ h1)
    have hl12sub : ∀ x ∈ l₁ ++ l₂, x ∈ l0 := by
      intro x hx
      rw [hl0]
      rcases List.mem_append.mp hx with h | h
      · exact List.mem_append_left _ h
      · exact List.mem_append_right _ (List.mem_cons_of_mem _ h)
    have K : ((if (l₁ ++ l₂).isEmpty then mdel s.queue e.origin
        else mset s.queue e.origin (l₁ ++ l₂)).map Prod.fst).Nodup := by
      by_cases hre : (l₁ ++ l₂).isEmpty
      · rw [if_pos hre, hmd]
        have hsub : List.Sublist ((m₁ ++ m₂).map Prod.fst) (s.queue.map Prod.fst) := by
          rw [hqeq]
          simp only [List.map_append, List.map_cons]
          exact List.Sublist.append_left (List.sublist_cons_self _ _) _
        exact inv.keysNodup.sublist hsub
      · rw [if_neg hre, hms]
        have hkeys : (m₁ ++ (e.origin, l₁ ++ l₂) :: m₂).map Prod.fst = s.queue.map Prod.fst := by
          rw [hqeq]
          simp
        rw [hkeys]
        exact inv.keysNodup
    have NE : ∀ p ∈ (if (l₁ ++ l₂).isEmpty then mdel s.queue e.origin
        else mset s.queue e.origin (l₁ ++ l₂)), p.2 ≠ [] := by
      by_cases hre : (l₁ ++ l₂).isEmpty
      · rw [if_pos hre, hmd]
        intro p hp'
        rcases List.mem_append.mp hp' with h | h
        · exact inv.listsNonempty p (hqeq ▸ List.mem_append_left _ h)
        · exact inv.listsNonempty p
            (hqeq ▸ List.mem_append_right _ (List.mem_cons_of_mem _ h))
      · rw [if_neg hre, hms]
        intro p hp'
        rcases List.mem_append.mp hp' with h | h
        · exact inv.listsNonempty p (hqeq ▸ List.mem_append_left _ h)
        · rcases List.mem_cons.mp h with h1 | h1
          · subst h1
            simpa [List.isEmpty_iff] using hre
          · exact inv.listsNonempty p
              (hqeq ▸ List.mem_append_right _ (List.mem_cons_of_mem _ h1))
    have OM : ∀ p ∈ (if (l₁ ++ l₂).isEmpty then mdel s.queue e.origin
        else mset s.queue e.origin (l₁ ++ l₂)), ∀ x ∈ p.2, x.origin = p.1 := by
      by_cases hre : (l₁ ++ l₂).isEmpty
      · rw [if_pos hre, hmd]
        intro p hp'
        rcases List.mem_append.mp hp' with h | h
        · exact inv.originsMatch p (hqeq ▸ List.mem_append_left _ h)
        · exact inv.originsMatch p
            (hqeq ▸ List.mem_append_right _ (List.mem_cons_of_mem _ h))
      · rw [if_neg hre, hms]
        intro p hp'
        rcases List.mem_append.mp hp' with h | h
        · exact inv.originsMatch p (hqeq ▸ List.mem_append_left _ h)
        · rcases List.mem_cons.mp h with h1 | h1
          · subst h1
            intro x hx
            exact inv.originsMatch (e.origin, l0) hp x (hl12sub x hx)
          · exact inv.originsMatch p
              (hqeq ▸ List.mem_append_right _ (List.mem_cons_of_mem _ h1))
    have SO : ∀ p ∈ (if (l₁ ++ l₂).isEmpty then mdel s.queue e.origin
        else mset s.queue e.origin (l₁ ++ l₂)), p.2.Pairwise (fun a b => a.id < b.id) := by
      by_cases hre : (l₁ ++ l₂).isEmpty
      · rw [if_pos hre, hmd]
        intro p hp'
        rcases List.mem_append.mp hp' with h | h
        · exact inv.sorted p (hqeq ▸ List.mem_append_left _ h)
        · exact inv.sorted p
            (hqeq ▸ List.mem_append_right _ (List.mem_cons_of_mem _ h))
      · rw [if_neg hre, hms]
        intro p hp'
        rcases List.mem_append.mp hp' with h | h
        · exact inv.sorted p (hqeq ▸ List.mem_append_left _ h)
        · rcases List.mem_cons.mp h with h1 | h1
          · subst h1
            have hso := inv.sorted (e.origin, l0) hp
            simp only at hso
            rw [hl0] at hso
            have hsub : List.Sublist (l₁ ++ l₂) (l₁ ++ e :: l₂) :=
              List.Sublist.append_left (List.sublist_cons_self _ _) _
            exact hso.sublist hsub
          · exact inv.sorted p
              (hqeq ▸ List.mem_append_right _ (List.mem_cons_of_mem _ h1))
    exact qinv_remove_finish inv rfl rfl he P1 P3 K NE OM SO

theorem enqueuedIds_map_cleared (l : List QEntry) :
    enqueuedIds (l.map QEvent.cleared503) = [] := by
  induction l with
  | nil => rfl
  | cons e rest ih =>
    simp only [List.map_cons, enqueuedIds, List.filterMap_cons, enqueueId]
    exact ih

theorem qinv_clear {maxQ : Nat} {s : QState} {evs : List QEvent}
    (inv : QueueInv maxQ s evs) :
    QueueInv maxQ (clearQ s).1 (evs ++ (clearQ s).2) := by
  have htimers : (allEntries s).foldl (fun ts e => ts.erase e) s.timers = [] :=
    foldl_erase_eq_nil _ _ inv.timersNodup (fun x hx => (inv.timersIff x).mp hx)
  have h1 : (clearQ s).1 = ⟨[], [], 0, s.nextId⟩ := by
    simp only [clearQ]
    rw [htimers]
  have h2 : (clearQ s).2 = (allEntries s).map QEvent.cleared503 := rfl
  rw [h1, h2]
  have hempty : allEntries (⟨[], [], 0, s.nextId⟩ : QState) = [] := rfl
  refine ⟨by simp, by simp, by simp, by simp, ?_, ?_, ?_, ?_, rfl, Nat.zero_le _,
    ?_, ?_, ?_, ?_, ?_, ?_⟩
  · intro x hx
    rw [hempty] at hx
    simp at hx
  · simp [hempty, idsOf]
  · simp
  · intro x
    simp [hempty]
  · rw [enqueuedIds_append, enqueuedIds_map_cleared, List.append_nil]
    exact inv.enqIncr
  · intro i hi
    rw [enqueuedIds_append, enqueuedIds_map_cleared, List.append_nil] at hi
    exact inv.enqBound i hi
  · intro i hi
    rw [resolvedIds_append, resolvedIds_map_cleared, List.mem_append] at hi
    rcases hi with h | h
    · exact inv.resolvedBound i h
    · obtain ⟨x, hx, rfl⟩ := mem_idsOf.mp h
      exact inv.idsBound x hx
  · rw [resolvedIds_append, resolvedIds_map_cleared, List.nodup_append]
    exact ⟨inv.resolvedNodup, inv.presentNodup, fun i hi hj => inv.disjointRP i hi hj⟩
  · intro i hi hmem
    rw [hempty] at hmem
    simp [idsOf] at hmem
  · intro i
    rw [enqueuedIds_append, enqueuedIds_map_cleared, List.append_nil,
      resolvedIds_append, resolvedIds_map_cleared, List.mem_append]
    have := inv.partitionIff i
    rw [this]
    rw [hempty]
    simp [idsOf]

theorem qinv_step {maxQ : Nat} {s : QState} {evs : List QEvent}
    (inv : QueueInv maxQ s evs) (op : QOp) :
    QueueInv maxQ (qstep maxQ s op).1 (evs ++ (qstep maxQ s op).2) := by
  cases op with
  | enq o => exact qinv_enqueue inv o
  | deq o => exact qinv_dequeue inv o
  | fire e => exact qinv_fire inv e
  | clear => exact qinv_clear inv

theorem qinv_runFrom {maxQ : Nat} :
    ∀ (ops : List QOp) (s : QState) (evs : List QEvent), QueueInv maxQ s evs →
      QueueInv maxQ (qrunFrom maxQ (s, evs) ops).1 (qrunFrom maxQ (s, evs) ops).2 := by
  intro ops
  induction ops with
  | nil =>
    intro s evs inv
    exact inv
  | cons op rest ih =>
    intro s evs inv
    exact ih (qstep maxQ s op).1 (evs ++ (qstep maxQ s op).2) (qinv_step inv op)

theorem qinv_init {maxQ : Nat} : QueueInv maxQ initQ [] := by
  refine ⟨?_, ?_, ?_, ?_, ?_, ?_, ?_, ?_, ?_, ?_, ?_, ?_, ?_, ?_, ?_, ?_⟩ <;>
    simp [initQ, allEntries, entriesOf, idsOf, enqueuedIds, resolvedIds]

theorem qinv_run (maxQ : Nat) (ops : List QOp) :
    QueueInv maxQ (qrun maxQ ops).1 (qrun maxQ ops).2 :=
  qinv_runFrom ops initQ [] qinv_init

theorem mem_of_mget {α : Type} {m : List (String × α)} {k : String} {l : α}
    (h : mget m k = some l) : (k, l) ∈ m := by
  induction m with
  | nil => simp [mget] at h
  | cons p rest ih =>
    obtain ⟨k', v⟩ := p
    by_cases hk : k' = k
    · subst hk
      have : v = l := by simpa [mget] using h
      subst this
      exact List.mem_cons_self _ _
    · simp only [mget, if_neg hk] at h
      exact List.mem_cons_of_mem _ (ih h)

/-- Claim C2: over any sequence of enqueue, dequeue, timeout and clear
operations from the empty queue, the total number of stored entries across
all origins (which the `totalQueued` counter tracks exactly) never exceeds
the configured maximum; an enqueue attempted while the total is at or above
the maximum returns `false`, logs the queue-full warning, and leaves the
queue unchanged; the constructor defaults are 512 entries and a 30000 ms
timeout. -/
theorem claim_C2_queue_bound (maxQ : Nat) (ops : List QOp) (s : QState) (o : String)
    (hfull : maxQ ≤ s.totalQueued) :
    (qrun maxQ ops).1.totalQueued ≤ maxQ ∧
    (qrun maxQ ops).1.totalQueued = (allEntries (qrun maxQ ops).1).length ∧
    enqueue maxQ o s = (false, s, [QEvent.warnQueueFull o]) ∧
    mkRequestQueue {} = (512, 30000) := by
  refine ⟨(qinv_run maxQ ops).countLe, (qinv_run maxQ ops).countEq, ?_, rfl⟩
  simp [enqueue, hfull]

theorem claim_C2_queue_bound_witness :
    (qrun 2 [QOp.enq "a", QOp.enq "a", QOp.enq "a"]).1.totalQueued ≤ 2 ∧
    enqueue 5 "o" ⟨[], [], 7, 0⟩ = (false, ⟨[], [], 7, 0⟩, [QEvent.warnQueueFull "o"]) :=
  ⟨(claim_C2_queue_bound 2 [QOp.enq "a", QOp.enq "a", QOp.enq "a"]
      ⟨[], [], 7, 0⟩ "o" (by decide)).1,
   (claim_C2_queue_bound 5 [] ⟨[], [], 7, 0⟩ "o" (by decide)).2.2.1⟩

/-- Claim C3: in any run from the empty queue, every resolution (resume by
dequeue, 503 by timeout, 503 by clear) concerns a distinct entry — no entry
is resolved twice, in particular none is both resumed and timed out; every
accepted entry is either already resolved or still queued, and every queued
entry still has its timer armed (so it cannot dangle).  Moreover dequeue
cancels the returned entry's timer: after a successful dequeue the entry is
no longer armed, and its timeout handler firing afterwards is a no-op that
emits no 503. -/
theorem claim_C3_resolved_exactly_once (maxQ : Nat) (ops : List QOp) (s : QState)
    (o : String) (e : QEntry) (hnd : s.timers.Nodup)
    (hdq : (dequeueQ o s).1 = some e) :
    ((resolvedIds (qrun maxQ ops).2).Nodup ∧
      (∀ i ∈ enqueuedIds (qrun maxQ ops).2,
        i ∈ resolvedIds (qrun maxQ ops).2 ∨ i ∈ idsOf (allEntries (qrun maxQ ops).1)) ∧
      (∀ x ∈ allEntries (qrun maxQ ops).1, x ∈ (qrun maxQ ops).1.timers)) ∧
    (e ∉ ((dequeueQ o s).2.1).timers ∧
      fireTimeout e ((dequeueQ o s).2.1) = ((dequeueQ o s).2.1, [])) := by
  have inv := qinv_run maxQ ops
  refine ⟨⟨inv.resolvedNodup, ?_, ?_⟩, ?_⟩
  · intro i hi
    exact (inv.partitionIff i).mp hi
  · intro x hx
    exact (inv.timersIff x).mpr hx
  · rcases hmg : mget s.queue o with _ | l
    · rw [show (dequeueQ o s).1 = none by simp [dequeueQ, hmg]] at hdq
      exact absurd hdq (by simp)
    rcases l with _ | ⟨e', rest⟩
    · rw [show (dequeueQ o s).1 = none by simp [dequeueQ, hmg]] at hdq
      exact absurd hdq (by simp)
    · have hee : e' = e := by
        have : (dequeueQ o s).1 = some e' := by simp [dequeueQ, hmg]
        rw [this] at hdq
        exact Option.some.injEq .. ▸ hdq
      subst hee
      have hti : ((dequeueQ o s).2.1).timers = s.timers.erase e' := by
        simp [dequeueQ, hmg]
      have hnm : e' ∉ s.timers.erase e' := by
        intro hmem
        exact absurd ((List.Nodup.mem_erase_iff hnd).mp hmem).1 (by simp)
      have hnm2 : e' ∉ ((dequeueQ o s).2.1).timers := by
        rw [hti]
        exact hnm
      refine ⟨hnm2, ?_⟩
      simp [fireTimeout, hti, hnm]

theorem claim_C3_resolved_exactly_once_witness :
    ((resolvedIds (qrun 4 [QOp.enq "a"]).2).Nodup ∧
      (∀ i ∈ enqueuedIds (qrun 4 [QOp.enq "a"]).2,
        i ∈ resolvedIds (qrun 4 [QOp.enq "a"]).2 ∨
          i ∈ idsOf (allEntries (qrun 4 [QOp.enq "a"]).1)) ∧
      (∀ x ∈ allEntries (qrun 4 [QOp.enq "a"]).1, x ∈ (qrun 4 [QOp.enq "a"]).1.timers)) ∧
    ((⟨0, "a"⟩ : QEntry) ∉
        ((dequeueQ "a" ⟨[("a", [⟨0, "a"⟩])], [⟨0, "a"⟩], 1, 1⟩).2.1).timers ∧
      fireTimeout ⟨0, "a"⟩ ((dequeueQ "a" ⟨[("a", [⟨0, "a"⟩])], [⟨0, "a"⟩], 1, 1⟩).2.1) =
        ((dequeueQ "a" ⟨[("a", [⟨0, "a"⟩])], [⟨0, "a"⟩], 1, 1⟩).2.1, [])) :=
  claim_C3_resolved_exactly_once 4 [QOp.enq "a"]
    ⟨[("a", [⟨0, "a"⟩])], [⟨0, "a"⟩], 1, 1⟩ "a" ⟨0, "a"⟩ (by decide) (by decide)

/-- Claim C4: per-origin FIFO — entry ids record enqueue order (the ids
accepted along any run are strictly increasing), and in any reachable state
dequeue never returns an entry while an earlier-enqueued entry of the same
origin is still queued (so, when neither is removed by timeout or clear,
the earlier entry is dequeued first); dequeue on an origin with no queued
entries returns null, and conversely. -/
theorem claim_C4_fifo (maxQ : Nat) (ops : List QOp) (o : String) (a b : QEntry)
    (p : String × List QEntry)
    (hp : p ∈ (qrun maxQ ops).1.queue) (hpo : p.1 = o)
    (ha : a ∈ p.2) (hb : b ∈ p.2) (hab : a.id < b.id) :
    (dequeueQ o (qrun maxQ ops).1).1 ≠ some b ∧
    (enqueuedIds (qrun maxQ ops).2).Pairwise (fun i j => i < j) ∧
    (∀ o', (dequeueQ o' (qrun maxQ ops).1).1 = none ↔
      ∀ x ∈ allEntries (qrun maxQ ops).1, x.origin ≠ o') := by
  have inv := qinv_run maxQ ops
  refine ⟨?_, inv.enqIncr, ?_⟩
  · have hp' : (o, p.2) ∈ (qrun maxQ ops).1.queue := by
      rw [← hpo]
      exact hp
    have hmg : mget (qrun maxQ ops).1.queue o = some p.2 :=
      mget_of_mem_nodup inv.keysNodup hp'
    rcases hl : p.2 with _ | ⟨e, rest⟩
    · rw [hl] at ha
      simp at ha
    have hdq : (dequeueQ o (qrun maxQ ops).1).1 = some e := by
      rw [hl] at hmg
      simp [dequeueQ, hmg]
    rw [hdq]
    intro hbe
    have hbe' : e = b := by simpa using hbe
    subst hbe'
    have hso := inv.sorted p hp
    rw [hl] at hso ha
    rcases List.mem_cons.mp ha with h1 | h1
    · subst h1
      exact absurd hab (by simp)
    · have := (List.pairwise_cons.mp hso).1 a h1
      omega
  · intro o'
    constructor
    · intro hnone x hx hxo
      obtain ⟨q, hq, hxq⟩ := mem_entriesOf.mp hx
      have hq' : (o', q.2) ∈ (qrun maxQ ops).1.queue := by
        have hoq : x.origin = q.1 := inv.originsMatch q hq x hxq
        rw [hxo] at hoq
        rw [hoq]
        exact hq
      have hmg : mget (qrun maxQ ops).1.queue o' = some q.2 :=
        mget_of_mem_nodup inv.keysNodup hq'
      rcases hl : q.2 with _ | ⟨e, rest⟩
      · rw [hl] at hxq
        simp at hxq
      · rw [hl] at hmg
        rw [show (dequeueQ o' (qrun maxQ ops).1).1 = some e by simp [dequeueQ, hmg]] at hnone
        exact absurd hnone (by simp)
    · intro hnox
      rcases hmg : mget (qrun maxQ ops).1.queue o' with _ | l
      · simp [dequeueQ, hmg]
      rcases l with _ | ⟨e, rest⟩
      · simp [dequeueQ, hmg]
      · have hmem : (o', e :: rest) ∈ (qrun maxQ ops).1.queue := mem_of_mget hmg
        have heo : e.origin = o' :=
          inv.originsMatch (o', e :: rest) hmem e (List.mem_cons_self _ _)
        have : e ∈ allEntries (qrun maxQ ops).1 :=
          mem_entriesOf.mpr ⟨(o', e :: rest), hmem, List.mem_cons_self _ _⟩
        exact absurd heo (hnox e this)

theorem claim_C4_fifo_witness :
    (dequeueQ "a" (qrun 512 [QOp.enq "a", QOp.enq "a"]).1).1 ≠
      some (⟨1, "a"⟩ : QEntry) ∧
    (enqueuedIds (qrun 512 [QOp.enq "a", QOp.enq "a"]).2).Pairwise (fun i j => i < j) ∧
    (∀ o', (dequeueQ o' (qrun 512 [QOp.enq "a", QOp.enq "a"]).1).1 = none ↔
      ∀ x ∈ allEntries (qrun 512 [QOp.enq "a", QOp.enq "a"]).1, x.origin ≠ o') :=
  claim_C4_fifo 512 [QOp.enq "a", QOp.enq "a"] "a" ⟨0, "a"⟩ ⟨1, "a"⟩
    ("a", [⟨0, "a"⟩, ⟨1, "a"⟩]) (by decide) (by decide) (by decide) (by decide) (by decide)

set_option maxRecDepth 100000 in
/-- Claim C1 (code bug witness): 101 back-to-back pooled requests to one
origin — whose session advertises the default `maxConcurrentStreams` of
100 — are all accepted without queueing: none of the calls returns the
queue-me signal, and after the 101st the session's `activeStreams` is 101,
exceeding `maxConcurrentStreams` = 100.  The 101st `getAvailableSession`
call finds the pool below `maxSessions` and delegates to `getSession`,
which hands back the same at-capacity session (reuse flag `true`) even
though `canAcceptStream` is `false`, so the spec's invariant
`activeStreams <= maxConcurrentStreams` is violated by the code. -/
theorem claim_C1_capacity_exceeded :
    poolObserve (repeatAcquire c1Origin { } 101) c1Origin = some (101, 100) ∧
    c1Observe = some (false, true) ∧ 101 > 100 := by
  refine ⟨by rfl, by rfl, by decide⟩

/-- Claim C8: session creation validates the `auth` option — a string that
does not split into exactly two colon-separated parts fails with the exact
invalid-format error, an empty username or password fails with the
empty-credential error, and a well-formed pair succeeds with the credential
attached to the connection options. -/
theorem claim_C8_auth_validation :
    validateAuth (some "invalidformat") =
      .error "Invalid auth format. Expected \"username:password\", got \"invalidformat\"" ∧
    validateAuth (some ":password") = .error "Auth username and password cannot be empty" ∧
    validateAuth (some "username:") = .error "Auth username and password cannot be empty" ∧
    validateAuth (some "user:pass") = .ok (some "user:pass") ∧
    buildConnectOptions ⟨none, some "user:pass"⟩ =
      .ok { rejectUnauthorized := true, auth := some "user:pass" } ∧
    getSession initPool "https://e" ⟨none, some "invalidformat"⟩ 0 =
      .error "Invalid auth format. Expected \"username:password\", got \"invalidformat\"" ∧
    getSession initPool "https://e" ⟨none, some "user:pass"⟩ 0 =
      .ok ({ sessions := [("https://e", newPoolSession 0)] }, false) := by
  refine ⟨by rfl, by rfl, by rfl, by rfl, by rfl, by rfl, by rfl⟩

/-- Claim C5 counterexample: a request whose `upgrade` header is present
(truthy) but not equal to "websocket" — here `upgrade: h2c` on a route with
no flags set — is NOT treated as WebSocket by the code: protocol selection
takes the pooled HTTP/2 path, not HTTP/1.1 as the claim's
"upgrade header present" predicate demands. -/
theorem claim_C5_counterexample :
    specUpgradeLike ⟨some "h2c", none, none, none⟩ = true ∧
    isWebSocketRequest ⟨some "h2c", none, none, none⟩ = false ∧
    (selectPath { } ⟨some "h2c", none, none, none⟩ "https://a" [] ProbeOutcome.success).1 =
      ProxyPath.http2Pooled := by
  refine ⟨by decide, by decide, by decide⟩

/-- Claim C5 (amended): protocol selection follows the precedence
ws → detected-WebSocket → forceHttp1 → autoDetectProtocol → pooled HTTP/2,
where the detected-WebSocket predicate is the code's: `upgrade` equal
(case-insensitively) to "websocket", or `connection` containing "upgrade"
together with a `sec-websocket-key`, or a `sec-websocket-version` header;
auto-detection consults the per-origin cache, probes on a miss, and caches
a timeout or connection error as "unsupported". -/
theorem claim_C5_protocol_precedence (o : ProtocolFlags) (h : ReqHeaders)
    (origin : String) (cache : List (String × Bool)) (probe : ProbeOutcome) :
    (o.ws = true → selectPath o h origin cache probe = (ProxyPath.http1, cache)) ∧
    (o.ws = false → isWebSocketRequest h = true →
      selectPath o h origin cache probe = (ProxyPath.http1, cache)) ∧
    (o.ws = false → isWebSocketRequest h = false → o.forceHttp1 = true →
      selectPath o h origin cache probe = (ProxyPath.http1, cache)) ∧
    (o.ws = false → isWebSocketRequest h = false → o.forceHttp1 = false →
      o.autoDetectProtocol = true →
      selectPath o h origin cache probe =
        ((if (supportsHttp2 cache origin probe).1 then ProxyPath.http2Pooled
          else ProxyPath.http1), (supportsHttp2 cache origin probe).2)) ∧
    (o.ws = false → isWebSocketRequest h = false → o.forceHttp1 = false →
      o.autoDetectProtocol = false →
      selectPath o h origin cache probe = (ProxyPath.http2Pooled, cache)) ∧
    (mget cache origin = none →
      supportsHttp2 cache origin probe =
        (probeBool probe, mset cache origin (probeBool probe))) ∧
    (∀ b, mget cache origin = some b → supportsHttp2 cache origin probe = (b, cache)) ∧
    probeBool ProbeOutcome.timeout = false ∧ probeBool ProbeOutcome.connError = false := by
  refine ⟨?_, ?_, ?_, ?_, ?_, ?_, ?_, rfl, rfl⟩
  · intro h1
    simp [selectPath, h1]
  · intro h1 h2
    simp [selectPath, h1, h2]
  · intro h1 h2 h3
    simp [selectPath, h1, h2, h3]
  · intro h1 h2 h3 h4
    simp only [selectPath, h1, h2, h3, h4, Bool.false_eq_true, if_false, if_true]
    by_cases hr : (supportsHttp2 cache origin probe).1 <;> simp [hr]
  · intro h1 h2 h3 h4
    simp [selectPath, h1, h2, h3, h4]
  · intro hmg
    simp [supportsHttp2, hmg]
  · intro b hmg
    simp [supportsHttp2, hmg]

theorem claim_C5_protocol_precedence_witness :
    selectPath ⟨false, true, false⟩ { } "o" [] ProbeOutcome.success = (ProxyPath.http1, []) ∧
    supportsHttp2 [] "o" ProbeOutcome.timeout =
      (probeBool ProbeOutcome.timeout, mset [] "o" (probeBool ProbeOutcome.timeout)) :=
  ⟨(claim_C5_protocol_precedence ⟨false, true, false⟩ { } "o" [] ProbeOutcome.success).2.2.1
      rfl (by decide) rfl,
   (claim_C5_protocol_precedence ⟨false, true, false⟩ { } "o" [] ProbeOutcome.timeout).2.2.2.2.2.1
      rfl⟩

theorem streamStep_disarmed {s : StreamState} (h : s.timerArmed = false)
    (e : StreamEvent) : (streamStep s e).timerArmed = false := by
  cases e <;> simp [streamStep, h]

theorem streamStep_fire_of_disarmed {s : StreamState} (h : s.timerArmed = false) :
    streamStep s StreamEvent.fireTimer = s := by
  simp [streamStep, h]

theorem streamRun_disarmed {s : StreamState} (h : s.timerArmed = false) :
    ∀ evs : List StreamEvent, (streamRun s evs).timerArmed = false := by
  intro evs
  induction evs generalizing s with
  | nil => exact h
  | cons e rest ih => exact ih (streamStep_disarmed h e)

theorem streamRun_append (s : StreamState) (a b : List StreamEvent) :
    streamRun s (a ++ b) = streamRun (streamRun s a) b := by
  induction a generalizing s with
  | nil => rfl
  | cons e rest ih => exact ih (streamStep s e)

/-- Claim C7 counterexample: on the HTTP/1.1 path with neither `timeout` nor
`proxyTimeout` configured, the timeout block's guard is falsy, so no
per-request timer is armed at all — although the claim promises every
forwarded request a timer falling back to a 120-second default (which is
indeed what the expression would yield, and what the pooled HTTP/2 path
always arms). -/
theorem claim_C7_counterexample :
    http1TimerArmed none none = false ∧ jsOrTimeout none none = 120000 := by
  refine ⟨rfl, rfl⟩

/-- Claim C7 (amended): the pooled HTTP/2 path always arms a gateway timer
of duration `proxyTimeout || timeout || 120000`; if it fires before any
response it closes the stream with `NGHTTP2_CANCEL` (8) and writes 504 (no
504 once headers are out); every `response`/`error`/`close` event disarms
the timer and nothing re-arms it, so after upstream headers arrive a timer
event is a no-op — a slow streaming body cannot trigger the gateway
timeout.  On the HTTP/1.1 path the timer exists only when `timeout` or
`proxyTimeout` is truthy, with the same duration expression. -/
theorem claim_C7_request_timeout (pt t : Option Nat) (evs1 evs2 : List StreamEvent)
    (us : Nat) (st : Option Nat) (rc : Option Nat) :
    jsOrTimeout none none = 120000 ∧
    (∀ n, n ≠ 0 → jsOrTimeout (some n) t = n) ∧
    (∀ n, n ≠ 0 → jsOrTimeout none (some n) = n) ∧
    streamStep ⟨true, false, none, none⟩ StreamEvent.fireTimer =
      ⟨false, true, some 504, some 8⟩ ∧
    streamStep ⟨true, true, st, rc⟩ StreamEvent.fireTimer = ⟨false, true, st, some 8⟩ ∧
    (streamRun initStream (evs1 ++ StreamEvent.response us :: evs2)).timerArmed = false ∧
    streamRun initStream ((evs1 ++ StreamEvent.response us :: evs2) ++
        [StreamEvent.fireTimer]) =
      streamRun initStream (evs1 ++ StreamEvent.response us :: evs2) ∧
    (http1TimerArmed t pt = true ↔ (jsOrNat t 0 ≠ 0 ∨ jsOrNat pt 0 ≠ 0)) := by
  have hdis : (streamRun initStream (evs1 ++ StreamEvent.response us :: evs2)).timerArmed =
      false := by
    rw [streamRun_append]
    have h1 : (streamStep (streamRun initStream evs1) (StreamEvent.response us)).timerArmed =
        false := by
      simp [streamStep]
    exact streamRun_disarmed h1 evs2
  refine ⟨rfl, ?_, ?_, by simp [streamStep], by simp [streamStep], hdis, ?_, ?_⟩
  · intro n hn
    simp [jsOrTimeout, jsOrNat, hn]
  · intro n hn
    simp [jsOrTimeout, jsOrNat, hn]
  · rw [streamRun_append]
    have hone : streamRun (streamRun initStream (evs1 ++ StreamEvent.response us :: evs2))
        [StreamEvent.fireTimer] =
        streamStep (streamRun initStream (evs1 ++ StreamEvent.response us :: evs2))
          StreamEvent.fireTimer := rfl
    rw [hone, streamStep_fire_of_disarmed hdis]
  · constructor
    · intro h
      by_contra hc
      push_neg at hc
      simp [http1TimerArmed, hc.1, hc.2] at h
    · intro h
      rcases h with h | h <;> simp [http1TimerArmed, h]

theorem claim_C7_request_timeout_witness :
    (streamRun initStream ([] ++ StreamEvent.response 200 :: [])).timerArmed = false ∧
    jsOrTimeout (some 5000) (some 60000) = 5000 :=
  ⟨(claim_C7_request_timeout none none [] [] 200 none none).2.2.2.2.2.1,
   (claim_C7_request_timeout (some 5000) (some 60000) [] [] 200 none none).2.1 5000
     (by decide)⟩

theorem mget_mset_self {α : Type} (m : List (String × α)) (k : String) (v : α) :
    mget (mset m k v) k = some v := by
  induction m with
  | nil => simp [mget, mset]
  | cons p rest ih =>
    obtain ⟨k', v'⟩ := p
    by_cases h : k' = k
    · subst h
      simp [mget, mset]
    · simp [mget, mset, h, ih]

theorem mget_mset_ne {α : Type} (m : List (String × α)) (k k' : String) (v : α)
    (h : k ≠ k') : mget (mset m k v) k' = mget m k' := by
  induction m with
  | nil => simp [mget, mset, h]
  | cons p rest ih =>
    obtain ⟨k0, v0⟩ := p
    by_cases h0 : k0 = k
    · subst h0
      simp [mget, mset, h]
    · simp [mget, mset, h0, ih]

theorem mget_guardedFold_skip {c : String × String → Bool}
    {l : List (String × String)} {k : String}
    (h : ∀ kv ∈ l, kv.1 = k → c kv = false) :
    ∀ base, mget (guardedFold c l base) k = mget base k := by
  induction l with
  | nil => intro base; rfl
  | cons kv rest ih =>
    intro base
    have hrest : ∀ kv' ∈ rest, kv'.1 = k → c kv' = false :=
      fun kv' hm => h kv' (List.mem_cons_of_mem _ hm)
    by_cases hc : c kv
    · have hne : kv.1 ≠ k := by
        intro heq
        rw [h kv (List.mem_cons_self _ _) heq] at hc
        exact absurd hc (by simp)
      calc mget (guardedFold c (kv :: rest) base) k
          = mget (guardedFold c rest (mset base kv.1 kv.2)) k := by
            simp [guardedFold, hc]
        _ = mget (mset base kv.1 kv.2) k := ih hrest _
        _ = mget base k := mget_mset_ne _ _ _ _ hne
    · calc mget (guardedFold c (kv :: rest) base) k
          = mget (guardedFold c rest base) k := by simp [guardedFold, hc]
        _ = mget base k := ih hrest _

theorem mget_guardedFold_mem {c : String × String → Bool}
    {l : List (String × String)} {k v : String}
    (hnd : (l.map Prod.fst).Nodup) (hmem : (k, v) ∈ l) (hc : c (k, v) = true) :
    ∀ base, mget (guardedFold c l base) k = some v := by
  induction l with
  | nil => simp at hmem
  | cons kv rest ih =>
    intro base
    simp only [List.map_cons, List.nodup_cons] at hnd
    rcases List.mem_cons.mp hmem with h1 | h1
    · have hkv : kv = (k, v) := h1.symm
      subst hkv
      have hknot : ∀ kv' ∈ rest, kv'.1 = k → c kv' = false := by
        intro kv' hm heq
        exact absurd (List.mem_map.mpr ⟨kv', hm, heq⟩) hnd.1
      calc mget (guardedFold c ((k, v) :: rest) base) k
          = mget (guardedFold c rest (mset base k v)) k := by simp [guardedFold, hc]
        _ = mget (mset base k v) k := mget_guardedFold_skip hknot _
        _ = some v := mget_mset_self _ _ _
    · have hne : kv.1 ≠ k := by
        intro heq
        exact hnd.1 (List.mem_map.mpr ⟨(k, v), h1, heq.symm ▸ rfl⟩)
      by_cases hck : c kv
      · calc mget (guardedFold c (kv :: rest) base) k
            = mget (guardedFold c rest (mset base kv.1 kv.2)) k := by
              simp [guardedFold, hck]
          _ = some v := ih hnd.2 h1 _
      · calc mget (guardedFold c (kv :: rest) base) k
            = mget (guardedFold c rest base) k := by simp [guardedFold, hck]
          _ = some v := ih hnd.2 h1 _

theorem applyCustomHeaders_eq_fold (hs : List (String × String))
    (h : List (String × String)) :
    applyCustomHeaders (some hs) h = guardedFold (fun _ => true) hs h := rfl

theorem find_original_key {hs : List (String × String)}
    (hlc : ∀ kv ∈ hs, strLower kv.1 = kv.1) {kv : String × String} (_hmem : kv ∈ hs) :
    ((hs.map Prod.fst).find? (fun k => strLower k = kv.1)).getD kv.1 = kv.1 := by
  rcases hf : (hs.map Prod.fst).find? (fun k => strLower k = kv.1) with _ | k0
  · rfl
  · have h1 := List.find?_some hf
    have h2 := List.mem_of_find?_eq_some hf
    obtain ⟨kv0, hkv0, rfl⟩ := List.mem_map.mp h2
    have h3 : strLower kv0.1 = kv.1 := by simpa using h1
    rw [Option.getD_some]
    exact (hlc kv0 hkv0).symm.trans h3

theorem copyInboundH2_eq_fold (req : InboundRequest) (o : RouteOptions)
    (hlc : ∀ kv ∈ req.headers, strLower kv.1 = kv.1) (base : List (String × String)) :
    copyInboundH2 req o base = guardedFold (h2CopyPass o) req.headers base := by
  unfold copyInboundH2 guardedFold
  apply List.foldl_ext
  intro acc kv hkv
  have hkey := find_original_key hlc hkv
  dsimp only
  by_cases h1 : strStartsWith kv.1 ":"
  · have hpass : h2CopyPass o kv = false := by
      simp only [h2CopyPass, if_pos h1]
    simp only [if_pos h1, hpass, Bool.false_eq_true, if_false]
  · by_cases h2 : kv.1 = "host" ∧ o.changeOrigin
    · have hpass : h2CopyPass o kv = false := by
        simp only [h2CopyPass, if_neg h1, if_pos h2]
      simp only [if_neg h1, if_pos h2, hpass, Bool.false_eq_true, if_false]
    · by_cases h3 : forbiddenHeadersH2.contains (strLower kv.1)
      · have hpass : h2CopyPass o kv = false := by
          simp only [h2CopyPass, if_neg h1, if_neg h2, if_pos h3]
        simp only [if_neg h1, if_neg h2, if_pos h3, hpass, Bool.false_eq_true, if_false]
      · have hpass : h2CopyPass o kv = true := by
          simp only [h2CopyPass, if_neg h1, if_neg h2, if_neg h3]
        by_cases h4 : o.preserveHeaderKeyCase
        · rw [if_neg h1, if_neg h2, if_neg h3, if_pos h4, hpass, if_pos rfl, hkey]
        · rw [if_neg h1, if_neg h2, if_neg h3, if_neg h4, hpass, if_pos rfl]

theorem http1Filtered_eq_fold (forbidden : List String)
    (l : List (String × String)) (base : List (String × String)) :
    l.foldl (fun acc kv =>
      if strStartsWith kv.1 ":" then acc
      else if forbidden.contains (strLower kv.1) then acc
      else if kv.2 ≠ "" then mset acc kv.1 kv.2
      else acc) base = guardedFold (http1CopyPass forbidden) l base := by
  unfold guardedFold
  apply List.foldl_ext
  intro acc kv _
  dsimp only
  by_cases h1 : strStartsWith kv.1 ":"
  · have hpass : http1CopyPass forbidden kv = false := by
      simp only [http1CopyPass, if_pos h1]
    simp only [if_pos h1, hpass, Bool.false_eq_true, if_false]
  · by_cases h2 : forbidden.contains (strLower kv.1)
    · have hpass : http1CopyPass forbidden kv = false := by
        simp only [http1CopyPass, if_neg h1, if_pos h2]
      simp only [if_neg h1, if_pos h2, hpass, Bool.false_eq_true, if_false]
    · by_cases h3 : kv.2 = ""
      · have hpass : http1CopyPass forbidden kv = false := by
          simp only [http1CopyPass, if_neg h1, if_neg h2, h3, if_neg]
          simp [h3]
        have hv : ¬(kv.2 ≠ "") := by simp [h3]
        simp only [if_neg h1, if_neg h2, if_neg hv, hpass, Bool.false_eq_true, if_false]
      · have hpass : http1CopyPass forbidden kv = true := by
          simp only [http1CopyPass, if_neg h1, if_neg h2]
          simp [h3]
        have hv : kv.2 ≠ "" := h3
        rw [if_neg h1, if_neg h2, if_pos hv, hpass, if_pos rfl]

theorem mget_applyXfwd_ne (req : InboundRequest) (h : List (String × String))
    (k : String) (hk : k ∉ xfwdKeys) : mget (applyXfwd req h) k = mget h k := by
  have h1 : "x-forwarded-for" ≠ k := fun he => hk (he ▸ by simp [xfwdKeys])
  have h2 : "x-forwarded-proto" ≠ k := fun he => hk (he ▸ by simp [xfwdKeys])
  have h3 : "x-forwarded-host" ≠ k := fun he => hk (he ▸ by simp [xfwdKeys])
  have h4 : "x-forwarded-port" ≠ k := fun he => hk (he ▸ by simp [xfwdKeys])
  unfold applyXfwd
  rw [mget_mset_ne _ _ _ _ h4, mget_mset_ne _ _ _ _ h3, mget_mset_ne _ _ _ _ h2,
    mget_mset_ne _ _ _ _ h1]

theorem mget_applyCustomHeaders_skip (custom : Option (List (String × String)))
    (h : List (String × String)) (k : String)
    (hc : ∀ hs, custom = some hs → ∀ kv ∈ hs, kv.1 ≠ k) :
    mget (applyCustomHeaders custom h) k = mget h k := by
  cases custom with
  | none => rfl
  | some hs =>
    rw [applyCustomHeaders_eq_fold]
    exact mget_guardedFold_skip (fun kv hm heq => absurd heq (hc hs rfl kv hm)) h

theorem applyAuthHeader_fills {a : String} (ha : a ≠ "") {h : List (String × String)}
    (hnone : truthyS (mget h "authorization") = false) :
    mget (applyAuthHeader (some a) h) "authorization" =
      some ("Basic " ++ base64encode a) := by
  unfold applyAuthHeader
  dsimp only
  rw [if_neg ha, if_neg (by rw [hnone]; simp)]
  exact mget_mset_self _ _ _

theorem applyAuthHeader_keeps (auth : Option String) {h : List (String × String)}
    (htruthy : truthyS (mget h "authorization") = true) :
    mget (applyAuthHeader auth h) "authorization" = mget h "authorization" := by
  cases auth with
  | none => rfl
  | some a =>
    unfold applyAuthHeader
    dsimp only
    by_cases ha : a = ""
    · rw [if_pos ha]
    · rw [if_neg ha, if_pos htruthy]

theorem mget_applyAuthHeader_ne (auth : Option String) (h : List (String × String))
    (k : String) (hk : "authorization" ≠ k) :
    mget (applyAuthHeader auth h) k = mget h k := by
  cases auth with
  | none => rfl
  | some a =>
    unfold applyAuthHeader
    dsimp only
    by_cases ha : a = ""
    · rw [if_pos ha]
    · rw [if_neg ha]
      by_cases ht : truthyS (mget h "authorization") = true
      · rw [if_pos ht]
      · rw [if_neg ht, mget_mset_ne _ _ _ _ hk]

/-- Claim C10: the outbound header translation performs no validation of the
configured `auth` string — whenever `auth` is a non-empty string, the
inbound request carries no `authorization` header and the route configures
none, both the HTTP/2 and the HTTP/1.1 header builders emit
`authorization: Basic <base64(auth)>` verbatim, for malformed credentials
(such as "invalidformat", which session creation rejects) just as for
well-formed ones. -/
theorem claim_C10_auth_header_unvalidated (req : InboundRequest) (target : TargetURL)
    (tHost : String) (o : RouteOptions) (a : String)
    (hlc : ∀ kv ∈ req.headers, strLower kv.1 = kv.1)
    (hauth : o.auth = some a) (ha : a ≠ "")
    (hreq : mget req.headers "authorization" = none)
    (hcust : ∀ hs, o.headers = some hs → ∀ kv ∈ hs, kv.1 ≠ "authorization") :
    mget (createHttp2Headers req target o) "authorization" =
      some ("Basic " ++ base64encode a) ∧
    mget (proxyHttp1Headers req tHost o) "authorization" =
      some ("Basic " ++ base64encode a) := by
  have hkeys : ∀ kv ∈ req.headers, kv.1 ≠ "authorization" := by
    intro kv hm heq
    rw [mget_eq_none_iff] at hreq
    exact hreq (List.mem_map.mpr ⟨kv, hm, heq⟩)
  constructor
  · -- HTTP/2 path
    unfold createHttp2Headers
    rw [hauth]
    have hs1 : truthyS (mget
        (if o.xfwd then
          applyXfwd req (applyCustomHeaders o.headers
            (if o.changeOrigin then
              mset (copyInboundH2 req o
                [(":method", req.method.getD "GET"),
                 (":scheme", strDropLast target.protocol),
                 (":authority", target.host)]) "host" target.host
             else copyInboundH2 req o
                [(":method", req.method.getD "GET"),
                 (":scheme", strDropLast target.protocol),
                 (":authority", target.host)]))
         else applyCustomHeaders o.headers
            (if o.changeOrigin then
              mset (copyInboundH2 req o
                [(":method", req.method.getD "GET"),
                 (":scheme", strDropLast target.protocol),
                 (":authority", target.host)]) "host" target.host
             else copyInboundH2 req o
                [(":method", req.method.getD "GET"),
                 (":scheme", strDropLast target.protocol),
                 (":authority", target.host)]))
        "authorization") = false := by
      have hbase : mget
          [(":method", req.method.getD "GET"),
           (":scheme", strDropLast target.protocol),
           (":authority", target.host)] "authorization" = none := by
        simp [mget]
      have hcopy : mget (copyInboundH2 req o
          [(":method", req.method.getD "GET"),
           (":scheme", strDropLast target.protocol),
           (":authority", target.host)]) "authorization" = none := by
        rw [copyInboundH2_eq_fold req o hlc,
          mget_guardedFold_skip (fun kv hm heq => absurd heq (hkeys kv hm)), hbase]
      have hhost : mget
          (if o.changeOrigin then
            mset (copyInboundH2 req o
              [(":method", req.method.getD "GET"),
               (":scheme", strDropLast target.protocol),
               (":authority", target.host)]) "host" target.host
           else copyInboundH2 req o
              [(":method", req.method.getD "GET"),
               (":scheme", strDropLast target.protocol),
               (":authority", target.host)]) "authorization" = none := by
        by_cases hco : o.changeOrigin
        · rw [if_pos hco, mget_mset_ne _ _ _ _ (by decide), hcopy]
        · rw [if_neg hco, hcopy]
      by_cases hx : o.xfwd
      · rw [if_pos hx, mget_applyXfwd_ne _ _ _ (by decide),
          mget_applyCustomHeaders_skip _ _ _ hcust, hhost]
        rfl
      · rw [if_neg hx, mget_applyCustomHeaders_skip _ _ _ hcust, hhost]
        rfl
    rw [applyAuthHeader_fills ha hs1]
  · -- HTTP/1.1 path
    unfold proxyHttp1Headers
    rw [hauth]
    apply applyAuthHeader_fills ha
    rw [http1Filtered_eq_fold]
    have hfilter : mget (guardedFold
        (http1CopyPass (if (o.ws ||
            (match mget req.headers "upgrade" with
              | some u => strLower u = "websocket"
              | none => false) : Bool) then
          ["keep-alive", "transfer-encoding", "proxy-connection", "te", "trailer"]
         else ["keep-alive", "transfer-encoding", "proxy-connection", "te", "trailer",
               "connection", "upgrade"])) req.headers []) "authorization" = none := by
      rw [mget_guardedFold_skip (fun kv hm heq => absurd heq (hkeys kv hm))]
      rfl
    generalize hG : guardedFold _ req.headers ([] : List (String × String)) = G at hfilter ⊢
    have hhost : mget (if o.changeOrigin then mset G "host" tHost else G)
        "authorization" = none := by
      by_cases hco : o.changeOrigin
      · rw [if_pos hco, mget_mset_ne _ _ _ _ (by decide), hfilter]
      · rw [if_neg hco, hfilter]
    generalize hH : (if o.changeOrigin then mset G "host" tHost else G) = H at hhost ⊢
    have hcustskip := mget_applyCustomHeaders_skip o.headers H "authorization" hcust
    by_cases hx : o.xfwd
    · rw [if_pos hx]
      rw [mget_mset_ne _ _ _ _ (by decide), mget_mset_ne _ _ _ _ (by decide),
        mget_mset_ne _ _ _ _ (by decide)]
      by_cases hra : req.remoteAddress ≠ ""
      · rw [if_pos hra, mget_mset_ne _ _ _ _ (by decide), hcustskip, hhost]
        rfl
      · rw [if_neg hra, hcustskip, hhost]
        rfl
    · rw [if_neg hx, hcustskip, hhost]
      rfl

theorem claim_C10_auth_header_unvalidated_witness :
    mget (createHttp2Headers { remoteAddress := "1.2.3.4" } ⟨"https:", "up.example"⟩
        { auth := some "invalidformat" }) "authorization" =
      some ("Basic " ++ base64encode "invalidformat") ∧
    mget (proxyHttp1Headers { remoteAddress := "1.2.3.4" } "up.example"
        { auth := some "invalidformat" }) "authorization" =
      some ("Basic " ++ base64encode "invalidformat") :=
  claim_C10_auth_header_unvalidated { remoteAddress := "1.2.3.4" }
    ⟨"https:", "up.example"⟩ "up.example" { auth := some "invalidformat" }
    "invalidformat" (by intro kv hm; simp at hm) rfl (by decide) rfl
    (by intro hs hh; simp at hh)

theorem createHttp2Headers_decomp (req : InboundRequest) (target : TargetURL)
    (o : RouteOptions) :
    createHttp2Headers req target o = applyAuthHeader o.auth (h2PreAuth req target o) := rfl

theorem mget_h2PreAuth_custom (req : InboundRequest) (target : TargetURL)
    (o : RouteOptions) (hs : List (String × String)) (k v : String)
    (hh : o.headers = some hs) (hnd : (hs.map Prod.fst).Nodup)
    (hv : mget hs k = some v) (hx : o.xfwd = false ∨ k ∉ xfwdKeys) :
    mget (h2PreAuth req target o) k = some v := by
  unfold h2PreAuth
  have hstep3 : mget (applyCustomHeaders o.headers
      (if o.changeOrigin then
        mset (copyInboundH2 req o
          [(":method", req.method.getD "GET"),
           (":scheme", strDropLast target.protocol),
           (":authority", target.host)]) "host" target.host
       else copyInboundH2 req o
          [(":method", req.method.getD "GET"),
           (":scheme", strDropLast target.protocol),
           (":authority", target.host)])) k = some v := by
    rw [hh, applyCustomHeaders_eq_fold]
    exact mget_guardedFold_mem hnd (mem_of_mget hv) rfl _
  rcases hx with hxf | hknot
  · rw [hxf]
    exact hstep3
  · by_cases hxw : o.xfwd
    · rw [if_pos hxw, mget_applyXfwd_ne _ _ _ hknot]
      exact hstep3
    · rw [if_neg hxw]
      exact hstep3

theorem mget_h2PreAuth_client_auth (req : InboundRequest) (target : TargetURL)
    (o : RouteOptions) (ca : String)
    (hlc : ∀ kv ∈ req.headers, strLower kv.1 = kv.1)
    (hnd : (req.headers.map Prod.fst).Nodup)
    (hca : mget req.headers "authorization" = some ca)
    (hcust : ∀ hs, o.headers = some hs → ∀ kv ∈ hs, kv.1 ≠ "authorization") :
    mget (h2PreAuth req target o) "authorization" = some ca := by
  unfold h2PreAuth
  have hpass : h2CopyPass o ("authorization", ca) = true := by
    simp [h2CopyPass, strStartsWith, forbiddenHeadersH2, strLower]
  have hcopy : mget (copyInboundH2 req o
      [(":method", req.method.getD "GET"),
       (":scheme", strDropLast target.protocol),
       (":authority", target.host)]) "authorization" = some ca := by
    rw [copyInboundH2_eq_fold req o hlc]
    exact mget_guardedFold_mem hnd (mem_of_mget hca) hpass _
  have hhost : mget
      (if o.changeOrigin then
        mset (copyInboundH2 req o
          [(":method", req.method.getD "GET"),
           (":scheme", strDropLast target.protocol),
           (":authority", target.host)]) "host" target.host
       else copyInboundH2 req o
          [(":method", req.method.getD "GET"),
           (":scheme", strDropLast target.protocol),
           (":authority", target.host)]) "authorization" = some ca := by
    by_cases hco : o.changeOrigin
    · rw [if_pos hco, mget_mset_ne _ _ _ _ (by decide), hcopy]
    · rw [if_neg hco, hcopy]
  by_cases hxw : o.xfwd
  · rw [if_pos hxw, mget_applyXfwd_ne _ _ _ (by decide),
      mget_applyCustomHeaders_skip _ _ _ hcust, hhost]
  · rw [if_neg hxw, mget_applyCustomHeaders_skip _ _ _ hcust, hhost]

/-- Claim C6 counterexample: custom route headers are NOT applied last — the
`x-forwarded-*` block runs after them, so a configured
`x-forwarded-for: custom` header is overwritten by the socket's remote
address under the default `xfwd: true`. -/
theorem claim_C6_counterexample :
    mget (createHttp2Headers { remoteAddress := "1.2.3.4" } ⟨"https:", "up.example"⟩
      { headers := some [("x-forwarded-for", "custom")] }) "x-forwarded-for" =
      some "1.2.3.4" ∧ some "1.2.3.4" ≠ some ("custom" : String) := by
  refine ⟨by rfl, by decide⟩

/-- Claim C6 (amended): custom route headers are applied after the inbound
copy and the `changeOrigin` host rewrite and override both, but they are
applied before the `x-forwarded-*` block, which overwrites them for those
four names when `xfwd` is on; a client-supplied (truthy) `authorization`
header is never overwritten by a configured `auth` credential, and `auth`
only fills in a Basic header when neither the client nor the custom headers
supplied a truthy one. -/
theorem claim_C6_header_precedence (req : InboundRequest) (target : TargetURL)
    (o : RouteOptions) (hs : List (String × String)) (k v ca : String) :
    (o.headers = some hs → (hs.map Prod.fst).Nodup → mget hs k = some v →
      (o.xfwd = false ∨ k ∉ xfwdKeys) → (k = "authorization" → v ≠ "") →
      mget (createHttp2Headers req target o) k = some v) ∧
    ((∀ kv ∈ req.headers, strLower kv.1 = kv.1) →
      (req.headers.map Prod.fst).Nodup →
      mget req.headers "authorization" = some ca → ca ≠ "" →
      (∀ hs', o.headers = some hs' → ∀ kv ∈ hs', kv.1 ≠ "authorization") →
      mget (createHttp2Headers req target o) "authorization" = some ca) := by
  constructor
  · intro hh hnd hv hx hka
    rw [createHttp2Headers_decomp]
    have hpre := mget_h2PreAuth_custom req target o hs k v hh hnd hv hx
    by_cases hk : k = "authorization"
    · subst hk
      rw [applyAuthHeader_keeps _ (by rw [hpre]; simp [truthyS, hka rfl]), hpre]
    · rw [mget_applyAuthHeader_ne _ _ _ (fun he => hk he.symm), hpre]
  · intro hlc hnd hca hcane hcust
    rw [createHttp2Headers_decomp]
    have hpre := mget_h2PreAuth_client_auth req target o ca hlc hnd hca hcust
    rw [applyAuthHeader_keeps _ (by rw [hpre]; simp [truthyS, hcane]), hpre]

theorem claim_C6_header_precedence_witness :
    mget (createHttp2Headers { remoteAddress := "1.2.3.4" } ⟨"https:", "up.example"⟩
        { headers := some [("x-custom", "yes")] }) "x-custom" = some "yes" ∧
    mget (createHttp2Headers
        { headers := [("authorization", "Bearer tok")], remoteAddress := "1.2.3.4" }
        ⟨"https:", "up.example"⟩ { auth := some "user:pass" }) "authorization" =
      some "Bearer tok" :=
  ⟨(claim_C6_header_precedence { remoteAddress := "1.2.3.4" } ⟨"https:", "up.example"⟩
      { headers := some [("x-custom", "yes")] } [("x-custom", "yes")] "x-custom" "yes"
      "").1 rfl (by decide) (by decide) (Or.inr (by decide)) (by intro h; simp at h),
   (claim_C6_header_precedence
      { headers := [("authorization", "Bearer tok")], remoteAddress := "1.2.3.4" }
      ⟨"https:", "up.example"⟩ { auth := some "user:pass" } [] "" ""
      "Bearer tok").2 (by intro kv hm; simp at hm; rw [hm]; rfl) (by decide)
      (by decide) (by decide) (by intro hs' hh; simp at hh)⟩

/-- Claim C9 counterexample: the rewriter does not change only the attribute
VALUE — it also normalizes the attribute name's case.  A lowercase
`domain=` attribute under a string rule comes back as `Domain=`, so the
output is not byte-identical to the input outside the value. -/
theorem claim_C9_counterexample :
    rewriteCookie "test=value; domain=example.com" (some (.str "localhost")) none =
      "test=value; Domain=localhost" ∧
    rewriteCookie "test=value; domain=example.com" (some (.str "localhost")) none ≠
      "test=value; domain=localhost" := by
  refine ⟨by rfl, by decide⟩

/-- Claim C9 (amended): the rewriter targets the first case-insensitive
`domain=`/`path=` substring with a non-empty `[^;]+` value (the attribute,
in well-formed cookies), writing back `Domain=`/`Path=` with the attribute
name case-normalized: a string rule replaces the matched value
unconditionally, a map rule only on an exact old-value match; with no rule
match or no attribute match the cookie passes through unchanged — in
particular the spec's round-trip example holds byte-for-byte. -/
theorem claim_C9_cookie_rewrite (cookie acc : String) (m : List (String × String))
    (dr pr : Option RewriteRule) (d : String) (matched cap : List Char)
    (pat : List Char) (rep : String) :
    (rewriteCookie "test=value; Domain=example.com; Path=/api"
        (some (.map [("example.com", "localhost")])) (some (.map [("/api", "/")])) =
      "test=value; Domain=localhost; Path=/") ∧
    (execAttr "domain=".toList cookie.toList = some (matched, cap) →
      mget m ⟨cap⟩ = none →
      rewritePass "domain=".toList "Domain=" (some (.map m)) cookie acc = acc) ∧
    (execAttr pat cookie.toList = none →
      rewritePass pat rep dr cookie acc = acc) ∧
    (execAttr "domain=".toList cookie.toList = none →
      execAttr "path=".toList cookie.toList = none →
      rewriteCookie cookie dr pr = cookie) ∧
    (execAttr "domain=".toList cookie.toList = some (matched, cap) → d ≠ "" →
      rewritePass "domain=".toList "Domain=" (some (.str d)) cookie acc =
        replaceFirst acc ⟨matched⟩ ("Domain=" ++ d)) := by
  have hpassnone : ∀ (pat' : List Char) (rep' : String) (r : Option RewriteRule)
      (acc' : String), execAttr pat' cookie.toList = none →
      rewritePass pat' rep' r cookie acc' = acc' := by
    intro pat' rep' r acc' hnone
    unfold rewritePass
    by_cases ht : ruleTruthy r
    · rw [if_pos ht]
      cases r with
      | none => rfl
      | some r' => rw [hnone]
    · rw [if_neg ht]
  refine ⟨by rfl, ?_, ?_, ?_, ?_⟩
  · intro hexec hmiss
    unfold rewritePass
    rw [if_pos (by simp [ruleTruthy]), hexec]
    simp [ruleLookup, hmiss]
  · intro hnone
    exact hpassnone pat rep dr acc hnone
  · intro hd hp
    unfold rewriteCookie
    by_cases hb : ¬ruleTruthy dr = true ∧ ¬ruleTruthy pr = true
    · rw [if_pos hb]
    · rw [if_neg hb]
      dsimp only
      rw [hpassnone _ _ dr cookie hd, hpassnone _ _ pr cookie hp]
  · intro hexec hdne
    unfold rewritePass
    rw [if_pos (by simp [ruleTruthy, hdne]), hexec]
    simp [ruleLookup]

theorem claim_C9_cookie_rewrite_witness :
    rewriteCookie "test=value; Domain=example.com; Path=/api"
        (some (.map [("example.com", "localhost")])) (some (.map [("/api", "/")])) =
      "test=value; Domain=localhost; Path=/" ∧
    rewritePass "domain=".toList "Domain="
        (some (.map [("other.com", "localhost")])) "a=1; Domain=x" "a=1; Domain=x" =
      "a=1; Domain=x" ∧
    rewriteCookie "sid=abc; Secure" (some (.str "localhost")) (some (.str "/")) =
      "sid=abc; Secure" :=
  ⟨(claim_C9_cookie_rewrite "a=1; Domain=x" "a=1; Domain=x" [("other.com", "localhost")]
      none none "" "Domain=x".toList "x".toList [] "").1,
   (claim_C9_cookie_rewrite "a=1; Domain=x" "a=1; Domain=x" [("other.com", "localhost")]
      none none "" "Domain=x".toList "x".toList [] "").2.1 (by decide) (by decide),
   (claim_C9_cookie_rewrite "sid=abc; Secure" "sid=abc; Secure" []
      (some (.str "localhost")) (some (.str "/")) "" [] [] [] "").2.2.2.1
      (by decide) (by decide)⟩
